import Mathlib

/-!
Shallow embedding of the batching/retry queue of `cloudwatch-winston`
(`src/index.js`).

JS strings are modelled as `List Char`; byte sizes use `Char.utf8Size`,
matching `Buffer.byteLength(msg, 'utf8')` on well-formed strings.  The single
`processQueue` invocation (src/index.js lines 95-148) is split at its
suspension points into `tickStart` (everything up to and including
`batches.shift()`, which has no `await` before it) and `tickEnd` (the awaited
remote calls, the catch blocks and the `finally`), so that `log` calls that
happen while a send is in flight can be interleaved exactly as the
single-threaded event loop allows.
-/

namespace CloudwatchWinston

/-- src/index.js line 17 -/
def maxBatchNumItems : Nat := 10000

/-- src/index.js line 18 -/
def maxMessageNumBytes : Nat := 256000

/-- src/index.js line 19 -/
def maxBatchNumBytes : Nat := 1048576

/-- src/index.js line 29: `Buffer.byteLength(msg, 'utf8')`. -/
def getStringBytesSize (msg : List Char) : Nat :=
  (msg.map Char.utf8Size).sum

/-- The `truncate-utf8-bytes` dependency (required on src/index.js line 2):
keeps the longest initial run of whole characters whose total UTF-8 byte
length does not exceed the budget, never cutting inside the bytes of one
encoded character. -/
def truncateUtf8Bytes : List Char → Nat → List Char
  | [], _ => []
  | c :: rest, n =>
    if c.utf8Size ≤ n then c :: truncateUtf8Bytes rest (n - c.utf8Size)
    else []

/-- The `err.name` values distinguished by src/index.js, plus a catch-all for
any other error (network failure, throttling, timeout...). -/
inductive AwsErrorName where
  | resourceAlreadyExists
  | dataAlreadyAccepted
  | invalidParameter
  | limitExceeded
  | unrecognizedClient
  | invalidSequenceToken
  | resourceNotFound
  | networkError
deriving DecidableEq, Repr

/-- A value thrown inside `processQueue`: either the `FatalError` wrapper of
src/index.js lines 22-27 (carrying the underlying cause) or the original
error rethrown as-is. -/
inductive ThrownError where
  | fatalError (cause : AwsErrorName)
  | plain (name : AwsErrorName)
deriving DecidableEq, Repr

/-- src/index.js line 56. -/
def createLogGroupFatalNames : List AwsErrorName :=
  [.invalidParameter, .limitExceeded, .unrecognizedClient]

/-- src/index.js line 74. -/
def createLogStreamFatalNames : List AwsErrorName :=
  [.invalidParameter, .resourceNotFound, .unrecognizedClient]

/-- src/index.js line 130. -/
def putLogEventsFatalNames : List AwsErrorName :=
  [.invalidParameter, .invalidSequenceToken, .resourceNotFound, .unrecognizedClient]

/-- The catch block of `createLogGroup` (src/index.js lines 53-60).  Note the
`ResourceAlreadyExistsException` branch (line 55) is empty apart from the
`// OK` comment, and control falls through to the unconditional `throw err`
on line 59, so that error is rethrown as a plain error. -/
def createLogGroupCatch (err : AwsErrorName) : ThrownError :=
  if err = .resourceAlreadyExists then
    ThrownError.plain err
  else if createLogGroupFatalNames.contains err then
    ThrownError.fatalError err
  else
    ThrownError.plain err

/-- The catch block of `createLogStream` (src/index.js lines 71-78), with the
same fall-through from the empty `ResourceAlreadyExistsException` branch to
`throw err` on line 77. -/
def createLogStreamCatch (err : AwsErrorName) : ThrownError :=
  if err = .resourceAlreadyExists then
    ThrownError.plain err
  else if createLogStreamFatalNames.contains err then
    ThrownError.fatalError err
  else
    ThrownError.plain err

/-- The inner catch block around `PutLogEvents` (src/index.js lines 127-134),
with the same fall-through from the empty `DataAlreadyAcceptedException`
branch (line 129) to `throw err` on line 133. -/
def putLogEventsCatch (err : AwsErrorName) : ThrownError :=
  if err = .dataAlreadyAccepted then
    ThrownError.plain err
  else if putLogEventsFatalNames.contains err then
    ThrownError.fatalError err
  else
    ThrownError.plain err

/-- One record handed to `PutLogEvents`: src/index.js line 185. -/
structure LogEvent where
  timestamp : Nat
  message : List Char
deriving DecidableEq, Repr

/-- Result of one `client.send(new PutLogEventsCommand(...))`: success with
or without `rejectedLogEventsInfo`, or a thrown error. -/
inductive PutResult where
  | ok (rejected : Bool)
  | err (name : AwsErrorName)
deriving DecidableEq, Repr

/-- What the remote client would answer to each call a tick might make. -/
structure TickEnv where
  createGroupResult : Option AwsErrorName
  createStreamResult : Option AwsErrorName
  putResult : PutResult
deriving DecidableEq, Repr

/-- Payloads of `onError` (the non-fatal error callback). -/
inductive ErrorKind where
  | rejectedLogEvents
  | queueFull
  | truncating
  | thrown (name : AwsErrorName)
deriving DecidableEq, Repr

/-- Observable actions of the transport, used to state temporal claims. -/
inductive Event where
  | sinkCreateGroup
  | sinkCreateStream
  | sinkPut (batch : List LogEvent)
  | batchDelivered (batch : List LogEvent)
  | recordAdmitted (ev : LogEvent)
  | errorReported (kind : ErrorKind)
  | fatalReported (cause : AwsErrorName)
  | resolved (id : Nat) (throws : Bool)
  | logAdmitted (id : Nat)
  | logRejected
deriving DecidableEq, Repr

/-- The configuration surface of `transport()` (src/index.js line 31) as far
as the queue logic reads it.  `fatalCallbackCloses` models what the supplied
`onFatalError` callback does to the transport: the `CloudWatchTransport`
class wires it to `this.emit('error', err)` which, per the comment on
src/index.js line 243, causes winston to close the transport synchronously;
`false` models an owner whose fatal callback does not close it. -/
structure Config where
  shouldCreateLogGroup : Bool
  shouldCreateLogStream : Bool
  maxQueuedBatches : Nat
  abandonQueueOnClose : Bool
  truncatedMessageSuffix : List Char
  queueOverrunMessage : List Char
  fatalCallbackCloses : Bool
deriving DecidableEq, Repr

/-- Defaults from the `CloudWatchTransport` constructor
(src/index.js lines 225-232). -/
def defaultConfig : Config where
  shouldCreateLogGroup := false
  shouldCreateLogStream := true
  maxQueuedBatches := 100
  abandonQueueOnClose := true
  truncatedMessageSuffix := " TRUNCATED".data
  queueOverrunMessage := "Log queue overrun".data
  fatalCallbackCloses := true

/-- The mutable state captured by the `transport()` closure
(src/index.js lines 34-42).  `callbacks` holds the registered flush waiters
as (identifier, whether the waiter callback throws when invoked) pairs;
`timerArmed` tracks whether a `setTimeout(processQueue, ...)` is pending;
`inFlight` holds the batch removed by `batches.shift()` in a `processQueue`
invocation that has not yet reached its `finally`. -/
structure TransportState where
  batches : List (List LogEvent)
  currentBatchTotalMessageSize : Nat
  stopped : Bool
  createdLogGroup : Bool
  createdLogStream : Bool
  queueOverrun : Bool
  timerArmed : Bool
  callbacks : List (Nat × Bool)
  nextCallbackId : Nat
  inFlight : Option (List LogEvent)
deriving DecidableEq, Repr

/-- State after the module-level initialisation and the startup
`processQueue()` call on src/index.js line 213 (queue empty, so that call
only arms the timer). -/
def initialState : TransportState where
  batches := []
  currentBatchTotalMessageSize := 0
  stopped := false
  createdLogGroup := false
  createdLogStream := false
  queueOverrun := false
  timerArmed := true
  callbacks := []
  nextCallbackId := 0
  inFlight := none

/-- src/index.js lines 82-93.  Each callback is invoked inside its own
`try { callback(); } catch (err) { /* ignored */ }`, so a throwing callback
is still invoked and does not stop the iteration; afterwards the set is
cleared and the overrun flag reset. -/
def callCallbacksIfEmptyQueue (s : TransportState) : TransportState × List Event :=
  if s.batches.isEmpty then
    ({ s with callbacks := [], queueOverrun := false },
     s.callbacks.map fun c => Event.resolved c.1 c.2)
  else (s, [])

/-- The `finally` block, src/index.js lines 145-147. -/
def tickFinally (cfg : Config) (s : TransportState) : TransportState :=
  { s with inFlight := none,
           timerArmed := !s.stopped || !cfg.abandonQueueOnClose }

/-- `processQueue` up to and including `batches.shift()`
(src/index.js lines 95-100).  A tick fires only when its timer is pending and
no invocation is already running.  The empty-queue invocation reaches its
`return` with no suspension point, so it is completed atomically here,
`finally` included. -/
def tickStart (cfg : Config) (s : TransportState) : TransportState × List Event :=
  if s.inFlight.isSome || !s.timerArmed then (s, [])
  else
    let s1 := { s with timerArmed := false }
    let r := callCallbacksIfEmptyQueue s1
    match r.1.batches with
    | [] => (tickFinally cfg r.1, r.2)
    | b :: rest => ({ r.1 with batches := rest, inFlight := some b }, r.2)

/-- The outer catch of `processQueue` (src/index.js lines 135-144) followed by
the `finally`.  On `FatalError` the callback receives the underlying cause and
the batch is not re-queued; on any other error the batch is unshifted back to
the front for retry. -/
def tickCatch (cfg : Config) (batch : List LogEvent) (e : ThrownError)
    (s : TransportState) (evs : List Event) : TransportState × List Event :=
  match e with
  | .fatalError cause =>
    let s1 := if cfg.fatalCallbackCloses
      then { s with stopped := true, timerArmed := false } else s
    (tickFinally cfg s1, evs ++ [.fatalReported cause])
  | .plain name =>
    (tickFinally cfg { s with batches := batch :: s.batches },
     evs ++ [.errorReported (.thrown name)])

/-- The `PutLogEvents` call and its catch (src/index.js lines 110-134),
followed by the success epilogue (line 120) or the outer catch. -/
def tickSend (cfg : Config) (env : TickEnv) (batch : List LogEvent)
    (s : TransportState) (evs : List Event) : TransportState × List Event :=
  match env.putResult with
  | .ok rejected =>
    (tickFinally cfg s,
     evs ++ [.sinkPut batch]
         ++ (if rejected then [.errorReported .rejectedLogEvents] else [])
         ++ [.batchDelivered batch])
  | .err e =>
    tickCatch cfg batch (putLogEventsCatch e) s (evs ++ [.sinkPut batch])

/-- src/index.js line 104: `if (!createdLogStream && shouldCreateLogStream)
await createLogStream()`. -/
def tickProvisionStream (cfg : Config) (env : TickEnv) (batch : List LogEvent)
    (s : TransportState) (evs : List Event) : TransportState × List Event :=
  if !s.createdLogStream && cfg.shouldCreateLogStream then
    match env.createStreamResult with
    | some e => tickCatch cfg batch (createLogStreamCatch e) s (evs ++ [.sinkCreateStream])
    | none => tickSend cfg env batch { s with createdLogStream := true }
        (evs ++ [.sinkCreateStream])
  else tickSend cfg env batch s evs

/-- The rest of the `processQueue` invocation after the `shift`
(src/index.js lines 102-147): provisioning, send, classification, `finally`. -/
def tickEnd (cfg : Config) (env : TickEnv) (s : TransportState) : TransportState × List Event :=
  match s.inFlight with
  | none => (s, [])
  | some batch =>
    if !s.createdLogGroup && cfg.shouldCreateLogGroup then
      match env.createGroupResult with
      | some e => tickCatch cfg batch (createLogGroupCatch e) s [.sinkCreateGroup]
      | none => tickProvisionStream cfg env batch { s with createdLogGroup := true }
          [.sinkCreateGroup]
    else tickProvisionStream cfg env batch s []

/-- Result of one `log` call: the returned promise (identified by the waiter
registered on src/index.js line 200) or a synchronous throw. -/
inductive LogResult where
  | admitted (id : Nat)
  | rejected
deriving DecidableEq, Repr

/-- src/index.js line 170. -/
def actualMaxMessageNumBytes (cfg : Config) : Nat :=
  maxMessageNumBytes - getStringBytesSize cfg.truncatedMessageSuffix

/-- The overrun guard, src/index.js lines 158-168: `none` means the `log`
call throws; otherwise the result carries the new overrun flag, the possibly
substituted message and the reported errors. -/
def overrunGuard (cfg : Config) (s : TransportState) (message : List Char) :
    Option (Bool × List Char × List Event) :=
  if s.batches.length ≥ cfg.maxQueuedBatches - 1 then
    if s.queueOverrun || cfg.queueOverrunMessage.isEmpty then none
    else some (true, cfg.queueOverrunMessage, [.errorReported .queueFull])
  else some (s.queueOverrun, message, [])

/-- The length guard, src/index.js lines 172-177: truncate and append the
suffix when the encoded size exceeds the per-message budget. -/
def lengthGuard (cfg : Config) (message : List Char) : List Char × List Event :=
  if getStringBytesSize message > actualMaxMessageNumBytes cfg then
    (truncateUtf8Bytes message (actualMaxMessageNumBytes cfg) ++ cfg.truncatedMessageSuffix,
     [.errorReported .truncating])
  else (message, [])

/-- src/index.js lines 183-185: push onto `batches[batches.length - 1]`. -/
def appendToLast : List (List LogEvent) → LogEvent → List (List LogEvent)
  | [], _ => []
  | [b], ev => [b ++ [ev]]
  | b :: b2 :: rest, ev => b :: appendToLast (b2 :: rest) ev

/-- The batch builder, src/index.js lines 179-198: create a batch when the
queue is empty, append, and seal (push a fresh empty batch, reset the byte
accumulator) when a per-batch limit has been reached. -/
def buildBatch (cfg : Config) (batches0 : List (List LogEvent)) (acc0 : Nat)
    (ev : LogEvent) (msgSize : Nat) : List (List LogEvent) × Nat :=
  let start := if batches0.isEmpty then (batches0 ++ [([] : List LogEvent)], 0)
               else (batches0, acc0)
  let batches := appendToLast start.1 ev
  let acc := start.2 + msgSize
  if (batches.getLastD []).length ≥ maxBatchNumItems
      || acc ≥ maxBatchNumBytes - actualMaxMessageNumBytes cfg then
    (batches ++ [([] : List LogEvent)], 0)
  else (batches, acc)

/-- The `log` function, src/index.js lines 150-205.  `message` is the result
of `formatLog(info)`; `cbThrows` says whether the waiter registered for this
record throws when later invoked (the real waiter is a promise resolver and
never throws, but the drain notifier must tolerate either). -/
def logStep (cfg : Config) (timestamp : Nat) (message : List Char) (cbThrows : Bool)
    (s : TransportState) : TransportState × List Event × LogResult :=
  if s.stopped then (s, [], .rejected)
  else
    match overrunGuard cfg s message with
    | none => (s, [], .rejected)
    | some (overrun, message1, evs1) =>
      let g := lengthGuard cfg message1
      let msgSize := getStringBytesSize g.1
      let ev : LogEvent := ⟨timestamp, g.1⟩
      let built := buildBatch cfg s.batches s.currentBatchTotalMessageSize ev msgSize
      let id := s.nextCallbackId
      let s1 := { s with batches := built.1,
                         currentBatchTotalMessageSize := built.2,
                         queueOverrun := overrun,
                         callbacks := s.callbacks ++ [(id, cbThrows)],
                         nextCallbackId := id + 1 }
      let r := callCallbacksIfEmptyQueue s1
      (r.1, evs1 ++ g.2 ++ [.recordAdmitted ev] ++ r.2, .admitted id)

/-- The `close` function, src/index.js lines 207-211. -/
def closeStep (s : TransportState) : TransportState :=
  { s with stopped := true, timerArmed := false }

/-- An externally triggered step of the system: a `log` call, the two halves
of a `processQueue` invocation, or `close`. -/
inductive Step where
  | enq (timestamp : Nat) (message : List Char) (cbThrows : Bool)
  | startTick
  | endTick (env : TickEnv)
  | shut
deriving DecidableEq, Repr

def stepRun (cfg : Config) (s : TransportState) : Step → TransportState × List Event
  | .enq ts m cb =>
    let r := logStep cfg ts m cb s
    match r.2.2 with
    | .admitted id => (r.1, r.2.1 ++ [.logAdmitted id])
    | .rejected => (r.1, r.2.1 ++ [.logRejected])
  | .startTick => tickStart cfg s
  | .endTick env => tickEnd cfg env s
  | .shut => (closeStep s, [])

def runFrom (cfg : Config) (s : TransportState) : List Step → TransportState × List Event
  | [] => (s, [])
  | st :: rest =>
    let r1 := stepRun cfg s st
    let r2 := runFrom cfg r1.1 rest
    (r2.1, r1.2 ++ r2.2)

def run (cfg : Config) (steps : List Step) : TransportState × List Event :=
  runFrom cfg initialState steps

/-- A public operation with the delivery tick taken atomically (no `log` call
interleaved inside the tick): enqueue, one whole tick, close. -/
inductive AStep where
  | enq (timestamp : Nat) (message : List Char) (cbThrows : Bool)
  | tick (env : TickEnv)
  | shut
deriving DecidableEq, Repr

def stepA (cfg : Config) (s : TransportState) : AStep → TransportState × List Event
  | .enq ts m cb => stepRun cfg s (.enq ts m cb)
  | .tick env =>
    let r1 := tickStart cfg s
    let r2 := tickEnd cfg env r1.1
    (r2.1, r1.2 ++ r2.2)
  | .shut => (closeStep s, [])

def runAFrom (cfg : Config) (s : TransportState) : List AStep → TransportState × List Event
  | [] => (s, [])
  | st :: rest =>
    let r1 := stepA cfg s st
    let r2 := runAFrom cfg r1.1 rest
    (r2.1, r1.2 ++ r2.2)

def runA (cfg : Config) (steps : List AStep) : TransportState × List Event :=
  runAFrom cfg initialState steps

/-- Total byte size of a batch, as accumulated on src/index.js line 186. -/
def batchBytes (b : List LogEvent) : Nat :=
  (b.map fun ev => getStringBytesSize ev.message).sum

/-- The records a sequence of events shows as permanently accepted by the
sink, oldest first. -/
def deliveredRecords (evs : List Event) : List LogEvent :=
  (evs.filterMap fun e => match e with
    | .batchDelivered b => some b
    | _ => none).flatten

/-- The records a sequence of events shows as admitted into the queue
(after any overrun substitution or truncation), oldest first. -/
def admittedRecords (evs : List Event) : List LogEvent :=
  evs.filterMap fun e => match e with
    | .recordAdmitted ev => some ev
    | _ => none

/-- The records currently owned by the queue: the batch in flight (next to
be settled) followed by the queued batches. -/
def pendingRecords (s : TransportState) : List LogEvent :=
  (s.inFlight.getD []) ++ s.batches.flatten

def isSinkEvent : Event → Bool
  | .sinkCreateGroup => true
  | .sinkCreateStream => true
  | .sinkPut _ => true
  | _ => false

def isFatalEvent : Event → Bool
  | .fatalReported _ => true
  | _ => false

def isDeliveredEvent : Event → Bool
  | .batchDelivered _ => true
  | _ => false

/-! ## Basic lemmas about byte sizes, truncation and the batch list -/

theorem getStringBytesSize_nil : getStringBytesSize [] = 0 := rfl

theorem getStringBytesSize_cons (c : Char) (l : List Char) :
    getStringBytesSize (c :: l) = c.utf8Size + getStringBytesSize l := by
  simp [getStringBytesSize]

theorem getStringBytesSize_append (l1 l2 : List Char) :
    getStringBytesSize (l1 ++ l2) = getStringBytesSize l1 + getStringBytesSize l2 := by
  simp [getStringBytesSize]

theorem getStringBytesSize_replicate (n : Nat) (c : Char) :
    getStringBytesSize (List.replicate n c) = n * c.utf8Size := by
  induction n with
  | zero => simp [getStringBytesSize]
  | succ k ih =>
    rw [List.replicate_succ, getStringBytesSize_cons, ih, Nat.succ_mul]
    omega

/-- The truncation result is an initial segment of whole characters: no
encoded character is ever split. -/
theorem truncateUtf8Bytes_front (s : List Char) (n : Nat) :
    truncateUtf8Bytes s n <+: s := by
  induction s generalizing n with
  | nil => simp [truncateUtf8Bytes]
  | cons c rest ih =>
    rw [truncateUtf8Bytes]
    split
    · exact (List.cons_prefix_cons).mpr ⟨rfl, ih _⟩
    · exact List.nil_prefix

/-- The truncation result fits the byte budget. -/
theorem truncateUtf8Bytes_size_le (s : List Char) (n : Nat) :
    getStringBytesSize (truncateUtf8Bytes s n) ≤ n := by
  induction s generalizing n with
  | nil => simp [truncateUtf8Bytes, getStringBytesSize]
  | cons c rest ih =>
    rw [truncateUtf8Bytes]
    split
    · rename_i h
      rw [getStringBytesSize_cons]
      have := ih (n - c.utf8Size)
      omega
    · simp [getStringBytesSize]

theorem truncateUtf8Bytes_replicate (m n : Nat) :
    truncateUtf8Bytes (List.replicate m 'a') n = List.replicate (min m n) 'a' := by
  induction m generalizing n with
  | zero => simp [truncateUtf8Bytes]
  | succ k ih =>
    rw [List.replicate_succ, truncateUtf8Bytes]
    by_cases h : ('a').utf8Size ≤ n
    · rw [if_pos h, ih]
      have ha : ('a').utf8Size = 1 := rfl
      rw [ha] at h ⊢
      have : min (k + 1) n = min k (n - 1) + 1 := by omega
      rw [this, List.replicate_succ]
    · rw [if_neg h]
      have ha : ('a').utf8Size = 1 := rfl
      rw [ha] at h
      have : min (k + 1) n = 0 := by omega
      rw [this]
      rfl

theorem appendToLast_eq (l : List (List LogEvent)) (ev : LogEvent) (h : l ≠ []) :
    appendToLast l ev = l.dropLast ++ [l.getLast h ++ [ev]] := by
  induction l with
  | nil => exact absurd rfl h
  | cons b rest ih =>
    cases rest with
    | nil => simp [appendToLast]
    | cons b2 rest2 =>
      rw [appendToLast, ih (by simp)]
      simp [List.getLast_cons]

theorem appendToLast_flatten (l : List (List LogEvent)) (ev : LogEvent) (h : l ≠ []) :
    (appendToLast l ev).flatten = l.flatten ++ [ev] := by
  rw [appendToLast_eq l ev h]
  conv_rhs => rw [← List.dropLast_append_getLast h]
  simp

theorem appendToLast_length (l : List (List LogEvent)) (ev : LogEvent) (h : l ≠ []) :
    (appendToLast l ev).length = l.length := by
  rw [appendToLast_eq l ev h]
  rw [List.length_append, List.length_dropLast]
  have : 0 < l.length := List.length_pos.mpr h
  simp
  omega

/-! ## Concrete configurations and traces used by the claims -/

/-- The constructor defaults with both provisioning steps enabled. -/
def provisioningConfig : Config where
  shouldCreateLogGroup := true
  shouldCreateLogStream := true
  maxQueuedBatches := 100
  abandonQueueOnClose := true
  truncatedMessageSuffix := " TRUNCATED".data
  queueOverrunMessage := "Log queue overrun".data
  fatalCallbackCloses := true

/-- The constructor defaults with both provisioning steps disabled. -/
def noProvisioningConfig : Config :=
  { provisioningConfig with shouldCreateLogGroup := false, shouldCreateLogStream := false }

/-- One record enqueued, then a tick whose `CreateLogGroup` call is answered
with `ResourceAlreadyExistsException` and whose other calls would succeed. -/
def alreadyExistsTrace : List Step :=
  [.enq 0 ['a'] false, .startTick,
   .endTick ⟨some .resourceAlreadyExists, none, .ok false⟩]

/-- One record enqueued, then a tick whose `PutLogEvents` call is answered
with `DataAlreadyAcceptedException`. -/
def alreadyAcceptedTrace : List Step :=
  [.enq 0 ['a'] false, .startTick, .endTick ⟨none, none, .err .dataAlreadyAccepted⟩]

/-! ## Claims -/

/-- **C2** (code bug): the spec — like the code's own `// OK` comments on
src/index.js lines 55, 73 and 129 and the README's promise to auto-create the
log group and stream — says an "already exists" provisioning failure and an
"already accepted" duplicate send are treated as success.  In the code both
branches are empty and control falls through to the unconditional `throw err`
(lines 59, 77, 133), so the error is rethrown as non-fatal: the readiness flag
is never set and the batch is unshifted back and retried forever instead of
being popped.  This theorem evaluates the embedded code at the two failing
inputs: after a `CreateLogGroup` call answered with
`ResourceAlreadyExistsException`, `createdLogGroup` is still false and the
batch is back in the queue; after a `PutLogEvents` call answered with
`DataAlreadyAcceptedException`, the batch is back in the queue and nothing was
delivered; both errors are reported to `onError` as retryable failures. -/
theorem c2_already_ok_branches_fall_through :
    (run provisioningConfig alreadyExistsTrace).1.createdLogGroup = false
    ∧ (run provisioningConfig alreadyExistsTrace).1.batches = [[⟨0, ['a']⟩]]
    ∧ Event.errorReported (.thrown .resourceAlreadyExists)
        ∈ (run provisioningConfig alreadyExistsTrace).2
    ∧ (run noProvisioningConfig alreadyAcceptedTrace).1.batches = [[⟨0, ['a']⟩]]
    ∧ Event.errorReported (.thrown .dataAlreadyAccepted)
        ∈ (run noProvisioningConfig alreadyAcceptedTrace).2
    ∧ (run noProvisioningConfig alreadyAcceptedTrace).2.countP isDeliveredEvent = 0 := by
  decide

/-- A tick firing on an empty queue: every waiter is invoked and the pending
set cleared (src/index.js lines 82-93, 96-100, 145-147). -/
theorem tickStart_drain (cfg : Config) (s : TransportState)
    (hempty : s.batches = []) (hidle : s.inFlight = none) (harm : s.timerArmed = true) :
    tickStart cfg s =
      (tickFinally cfg { s with timerArmed := false, callbacks := [], queueOverrun := false },
       s.callbacks.map fun c => Event.resolved c.1 c.2) := by
  rw [tickStart]
  simp [hidle, harm, callCallbacksIfEmptyQueue, hempty]

/-- **C8** (confirmed): a delivery tick that observes an empty queue invokes
every registered flush waiter — in registration order, each wrapped in its own
`try`/`catch` so a throwing waiter is still invoked and does not prevent any
later waiter from being notified — and clears the pending set completely.
With distinct waiter identities (the code keys waiters by distinct promise
resolvers in a `Set`), each waiter is resolved exactly once. -/
theorem c8_drain_tick_resolves_every_waiter_once (cfg : Config) (s : TransportState)
    (hempty : s.batches = []) (hidle : s.inFlight = none) (harm : s.timerArmed = true) :
    (tickStart cfg s).2 = s.callbacks.map (fun c => Event.resolved c.1 c.2)
    ∧ (tickStart cfg s).1.callbacks = []
    ∧ (∀ c ∈ s.callbacks, Event.resolved c.1 c.2 ∈ (tickStart cfg s).2)
    ∧ ((s.callbacks.map Prod.fst).Nodup →
        ∀ c ∈ s.callbacks, (tickStart cfg s).2.count (Event.resolved c.1 c.2) = 1) := by
  have hmain := tickStart_drain cfg s hempty hidle harm
  refine ⟨by rw [hmain], by rw [hmain]; rfl, ?_, ?_⟩
  · intro c hc
    rw [hmain]
    exact List.mem_map.mpr ⟨c, hc, rfl⟩
  · intro hnodup c hc
    rw [hmain]
    have hinj : Function.Injective (fun c : Nat × Bool => Event.resolved c.1 c.2) := by
      intro a b hab
      cases a; cases b
      simpa [Prod.ext_iff] using hab
    rw [List.count_map_of_injective _ _ hinj]
    have hnd : s.callbacks.Nodup := hnodup.of_map
    exact List.count_eq_one_of_mem hnd hc

/-- Concrete check of `c8_drain_tick_resolves_every_waiter_once`: three
pending waiters, the middle one throwing, on an empty queue. -/
theorem c8_drain_tick_resolves_every_waiter_once_witness :
    (tickStart defaultConfig
        { initialState with callbacks := [(0, false), (1, true), (2, false)],
                            nextCallbackId := 3 }).2
      = [Event.resolved 0 false, Event.resolved 1 true, Event.resolved 2 false]
    ∧ (tickStart defaultConfig
        { initialState with callbacks := [(0, false), (1, true), (2, false)],
                            nextCallbackId := 3 }).1.callbacks = []
    ∧ (tickStart defaultConfig
        { initialState with callbacks := [(0, false), (1, true), (2, false)],
                            nextCallbackId := 3 }).2.count (Event.resolved 1 true) = 1 := by
  have h := c8_drain_tick_resolves_every_waiter_once defaultConfig
    { initialState with callbacks := [(0, false), (1, true), (2, false)],
                        nextCallbackId := 3 } rfl rfl rfl
  exact ⟨h.1, h.2.1, h.2.2.2 (by decide) (1, true) (by decide)⟩

/-- **C7** (confirmed): a record whose text encodes to more than
`maxMessageBytes` minus the suffix's byte length is stored as the text
truncated at a whole-character boundary to that budget with the suffix
appended; the total never exceeds `maxMessageNumBytes`; the non-fatal
truncation error is reported; and running the guard again on the stored
message never splits a character (the re-truncation is again a
whole-character initial segment) and never exceeds the max. -/
theorem c7_truncation_bytesafe_bounded_idempotent (cfg : Config) (m : List Char)
    (hsuffix : getStringBytesSize cfg.truncatedMessageSuffix ≤ maxMessageNumBytes)
    (hlong : getStringBytesSize m > actualMaxMessageNumBytes cfg) :
    (lengthGuard cfg m).1
      = truncateUtf8Bytes m (actualMaxMessageNumBytes cfg) ++ cfg.truncatedMessageSuffix
    ∧ truncateUtf8Bytes m (actualMaxMessageNumBytes cfg) <+: m
    ∧ getStringBytesSize (truncateUtf8Bytes m (actualMaxMessageNumBytes cfg))
        ≤ actualMaxMessageNumBytes cfg
    ∧ getStringBytesSize (lengthGuard cfg m).1 ≤ maxMessageNumBytes
    ∧ (lengthGuard cfg m).2 = [.errorReported .truncating]
    ∧ getStringBytesSize (lengthGuard cfg (lengthGuard cfg m).1).1 ≤ maxMessageNumBytes
    ∧ ((lengthGuard cfg (lengthGuard cfg m).1).1 = (lengthGuard cfg m).1
       ∨ ∃ p, p <+: (lengthGuard cfg m).1
           ∧ (lengthGuard cfg (lengthGuard cfg m).1).1 = p ++ cfg.truncatedMessageSuffix) := by
  have hbudget : ∀ w : List Char,
      getStringBytesSize (truncateUtf8Bytes w (actualMaxMessageNumBytes cfg)
          ++ cfg.truncatedMessageSuffix) ≤ maxMessageNumBytes := by
    intro w
    rw [getStringBytesSize_append]
    have h1 := truncateUtf8Bytes_size_le w (actualMaxMessageNumBytes cfg)
    have h2 : actualMaxMessageNumBytes cfg
        = maxMessageNumBytes - getStringBytesSize cfg.truncatedMessageSuffix := rfl
    omega
  have hguard : lengthGuard cfg m
      = (truncateUtf8Bytes m (actualMaxMessageNumBytes cfg) ++ cfg.truncatedMessageSuffix,
         [.errorReported .truncating]) := by
    rw [lengthGuard, if_pos hlong]
  refine ⟨by rw [hguard], truncateUtf8Bytes_front m _, truncateUtf8Bytes_size_le m _,
          by rw [hguard]; exact hbudget m, by rw [hguard], ?_, ?_⟩
  · rw [lengthGuard]
    split
    · exact hbudget _
    · rename_i hfit
      rw [hguard] at hfit ⊢
      exact hbudget m
  · rw [lengthGuard]
    split
    · exact Or.inr ⟨_, truncateUtf8Bytes_front _ _, rfl⟩
    · exact Or.inl rfl

/-- Concrete check of `c7_truncation_bytesafe_bounded_idempotent`:
Scenario 5 of the spec, a 300,000-byte text under the default configuration
(`maxMessageBytes = 256,000`, suffix `" TRUNCATED"`). -/
theorem c7_truncation_witness :
    (lengthGuard defaultConfig (List.replicate 300000 'a')).1
      = truncateUtf8Bytes (List.replicate 300000 'a')
          (actualMaxMessageNumBytes defaultConfig) ++ defaultConfig.truncatedMessageSuffix
    ∧ truncateUtf8Bytes (List.replicate 300000 'a')
        (actualMaxMessageNumBytes defaultConfig) <+: List.replicate 300000 'a'
    ∧ getStringBytesSize (truncateUtf8Bytes (List.replicate 300000 'a')
        (actualMaxMessageNumBytes defaultConfig)) ≤ actualMaxMessageNumBytes defaultConfig
    ∧ getStringBytesSize (lengthGuard defaultConfig (List.replicate 300000 'a')).1
        ≤ maxMessageNumBytes
    ∧ (lengthGuard defaultConfig (List.replicate 300000 'a')).2
        = [.errorReported .truncating]
    ∧ getStringBytesSize
        (lengthGuard defaultConfig
          (lengthGuard defaultConfig (List.replicate 300000 'a')).1).1 ≤ maxMessageNumBytes
    ∧ ((lengthGuard defaultConfig
          (lengthGuard defaultConfig (List.replicate 300000 'a')).1).1
          = (lengthGuard defaultConfig (List.replicate 300000 'a')).1
       ∨ ∃ p, p <+: (lengthGuard defaultConfig (List.replicate 300000 'a')).1
           ∧ (lengthGuard defaultConfig
                (lengthGuard defaultConfig (List.replicate 300000 'a')).1).1
               = p ++ defaultConfig.truncatedMessageSuffix) :=
  c7_truncation_bytesafe_bounded_idempotent defaultConfig (List.replicate 300000 'a')
    (by decide)
    (by rw [getStringBytesSize_replicate]; decide)

/-- The defaults with truncation suffix set to the empty string
("Set to empty string to disable", per the README option docs). -/
def emptySuffixConfig : Config :=
  { defaultConfig with truncatedMessageSuffix := [] }

/-- If the queue is below capacity the overrun guard is a no-op
(src/index.js line 159 not taken). -/
theorem overrunGuard_below_cap (cfg : Config) (s : TransportState) (message : List Char)
    (h : ¬ s.batches.length ≥ cfg.maxQueuedBatches - 1) :
    overrunGuard cfg s message = some (s.queueOverrun, message, []) := by
  rw [overrunGuard, if_neg h]

/-- A fresh transport with the empty-suffix defaults admits and truncates any
message of 256,001 bytes whose truncation to 256,000 bytes is `T`.  Stated
over an abstract message so that concrete gigantic literals never have to be
normalised term by term. -/
theorem emptySuffix_oversized_admitted_core (M T : List Char)
    (hM : getStringBytesSize M = 256001)
    (hT : truncateUtf8Bytes M 256000 = T) (hTs : getStringBytesSize T = 256000) :
    (logStep emptySuffixConfig 0 M false initialState).2.2 = LogResult.admitted 0
    ∧ (logStep emptySuffixConfig 0 M false initialState).1.batches = [[⟨0, T⟩]] := by
  rw [logStep]
  norm_num [initialState, emptySuffixConfig, defaultConfig, overrunGuard, lengthGuard,
    buildBatch, appendToLast, callCallbacksIfEmptyQueue, actualMaxMessageNumBytes,
    maxBatchNumItems, maxBatchNumBytes, maxMessageNumBytes, getStringBytesSize_nil,
    hM, hT, hTs]

/-- **C4** (counterexample): with the truncation suffix configured as the
empty string, a 256,001-byte record is NOT rejected by `log`: it is admitted
with its text truncated to the full 256,000-byte per-message maximum and
nothing appended.  The code has no rejection path in its length guard
(src/index.js lines 170-177); it truncates unconditionally. -/
theorem c4_empty_suffix_still_truncates_counterexample :
    (logStep emptySuffixConfig 0 (List.replicate 256001 'a') false initialState).2.2
      = LogResult.admitted 0
    ∧ (logStep emptySuffixConfig 0 (List.replicate 256001 'a') false initialState).1.batches
      = [[⟨0, List.replicate 256000 'a'⟩]] :=
  emptySuffix_oversized_admitted_core (List.replicate 256001 'a') (List.replicate 256000 'a')
    (by rw [getStringBytesSize_replicate]; rfl)
    (by rw [truncateUtf8Bytes_replicate]; norm_num)
    (by rw [getStringBytesSize_replicate]; rfl)

/-- **C4** (amended): with an empty truncation suffix an oversized record is
not rejected; instead it is always admitted (when the transport is open and
the queue below capacity) with its text truncated at a whole-character
boundary to the full `maxMessageNumBytes`, no suffix appended, and the
truncation reported as a non-fatal error. -/
theorem c4_amended_empty_suffix_truncates_and_admits (cfg : Config)
    (hsuf : cfg.truncatedMessageSuffix = []) (m : List Char)
    (hlong : getStringBytesSize m > maxMessageNumBytes)
    (ts : Nat) (cb : Bool) (s : TransportState)
    (hstop : s.stopped = false)
    (hcap : ¬ s.batches.length ≥ cfg.maxQueuedBatches - 1) :
    (logStep cfg ts m cb s).2.2 = LogResult.admitted s.nextCallbackId
    ∧ (lengthGuard cfg m).1 = truncateUtf8Bytes m maxMessageNumBytes
    ∧ getStringBytesSize (lengthGuard cfg m).1 ≤ maxMessageNumBytes
    ∧ truncateUtf8Bytes m maxMessageNumBytes <+: m
    ∧ Event.errorReported .truncating ∈ (logStep cfg ts m cb s).2.1
    ∧ Event.recordAdmitted ⟨ts, (lengthGuard cfg m).1⟩ ∈ (logStep cfg ts m cb s).2.1 := by
  have hmax : actualMaxMessageNumBytes cfg = maxMessageNumBytes := by
    rw [actualMaxMessageNumBytes, hsuf]
    rfl
  have hguard : lengthGuard cfg m
      = (truncateUtf8Bytes m maxMessageNumBytes, [.errorReported .truncating]) := by
    rw [lengthGuard, if_pos (by rw [hmax]; exact hlong), hmax, hsuf, List.append_nil]
  have hlog : logStep cfg ts m cb s =
      (let g := lengthGuard cfg m
       let msgSize := getStringBytesSize g.1
       let ev : LogEvent := ⟨ts, g.1⟩
       let built := buildBatch cfg s.batches s.currentBatchTotalMessageSize ev msgSize
       let s1 := { s with batches := built.1,
                          currentBatchTotalMessageSize := built.2,
                          queueOverrun := s.queueOverrun,
                          callbacks := s.callbacks ++ [(s.nextCallbackId, cb)],
                          nextCallbackId := s.nextCallbackId + 1 }
       let r := callCallbacksIfEmptyQueue s1
       (r.1, [] ++ g.2 ++ [.recordAdmitted ev] ++ r.2, .admitted s.nextCallbackId)) := by
    rw [logStep]
    simp [hstop, overrunGuard_below_cap cfg s m hcap]
  refine ⟨by rw [hlog], by rw [hguard], ?_, truncateUtf8Bytes_front m _, ?_, ?_⟩
  · rw [hguard]
    exact truncateUtf8Bytes_size_le m _
  · rw [hlog]
    simp [hguard]
  · rw [hlog]
    simp

/-- Concrete check of `c4_amended_empty_suffix_truncates_and_admits` at a
256,001-byte record on a fresh transport with the empty-suffix defaults. -/
theorem c4_amended_witness :
    (logStep emptySuffixConfig 7 (List.replicate 256001 'a') false initialState).2.2
      = LogResult.admitted 0
    ∧ (lengthGuard emptySuffixConfig (List.replicate 256001 'a')).1
      = truncateUtf8Bytes (List.replicate 256001 'a') maxMessageNumBytes
    ∧ getStringBytesSize (lengthGuard emptySuffixConfig (List.replicate 256001 'a')).1
      ≤ maxMessageNumBytes
    ∧ truncateUtf8Bytes (List.replicate 256001 'a') maxMessageNumBytes
      <+: List.replicate 256001 'a'
    ∧ Event.errorReported .truncating
      ∈ (logStep emptySuffixConfig 7 (List.replicate 256001 'a') false initialState).2.1
    ∧ Event.recordAdmitted ⟨7, (lengthGuard emptySuffixConfig (List.replicate 256001 'a')).1⟩
      ∈ (logStep emptySuffixConfig 7 (List.replicate 256001 'a') false initialState).2.1 :=
  c4_amended_empty_suffix_truncates_and_admits emptySuffixConfig rfl
    (List.replicate 256001 'a') (by rw [getStringBytesSize_replicate]; decide)
    7 false initialState rfl (by decide)

theorem callCallbacksIfEmptyQueue_of_ne_nil (s : TransportState) (h : s.batches ≠ []) :
    callCallbacksIfEmptyQueue s = (s, []) := by
  rw [callCallbacksIfEmptyQueue, if_neg (by simpa using h)]

theorem appendToLast_ne_nil (l : List (List LogEvent)) (ev : LogEvent) (h : l ≠ []) :
    appendToLast l ev ≠ [] := by
  intro hnil
  have := appendToLast_length l ev h
  rw [hnil] at this
  exact h (List.eq_nil_of_length_eq_zero this.symm)

theorem buildBatch_fst_ne_nil (cfg : Config) (batches0 : List (List LogEvent)) (acc0 : Nat)
    (ev : LogEvent) (msgSize : Nat) : (buildBatch cfg batches0 acc0 ev msgSize).1 ≠ [] := by
  rw [buildBatch]
  by_cases hb : batches0.isEmpty = true
  · rw [if_pos hb]
    split
    · simp
    · exact appendToLast_ne_nil _ ev (by simp)
  · rw [if_neg hb]
    have hb' : batches0 ≠ [] := by
      intro h
      exact hb (by simp [h])
    split
    · simp
    · exact appendToLast_ne_nil _ ev hb'

theorem lengthGuard_snd_cases (cfg : Config) (m : List Char) :
    (lengthGuard cfg m).2 = [] ∨ (lengthGuard cfg m).2 = [.errorReported .truncating] := by
  rw [lengthGuard]
  split
  · exact Or.inr rfl
  · exact Or.inl rfl

/-- `maxQueuedBatches := 2` with stream provisioning off: capacity is hit as
soon as one batch is queued. -/
def smallQueueConfig : Config :=
  { defaultConfig with maxQueuedBatches := 2, shouldCreateLogStream := false }

/-- Hit capacity (record substituted by the overrun marker), then deliver the
only batch so that the queue fully drains. -/
def overrunDrainTrace : List Step :=
  [.enq 0 ['a'] false, .enq 1 ['b'] false, .startTick, .endTick ⟨none, none, .ok false⟩]

/-- ... then admit one record while no tick has observed the drain, and hit
capacity once more. -/
def overrunRefillTrace : List Step :=
  overrunDrainTrace ++ [.enq 2 ['c'] false, .enq 3 ['d'] false]

/-- **C5** (counterexample): with `maxQueuedBatches = 2`, after the overrun
marker is admitted and the only batch is delivered the queue has fully
drained, yet the Overrun Flag is still set (it resets only when a delivery
tick observes the empty queue, and none has).  A record admitted before such
a tick refills the queue, and the next at-capacity admission is then rejected
outright — where the claim ("the flag resets to false when the queue fully
drains") requires a fresh marker substitution with flag reset. -/
theorem c5_flag_survives_drain_counterexample :
    (run smallQueueConfig overrunDrainTrace).1.batches = []
    ∧ (run smallQueueConfig overrunDrainTrace).1.queueOverrun = true
    ∧ (run smallQueueConfig overrunRefillTrace).2.count Event.logRejected = 1
    ∧ (run smallQueueConfig overrunRefillTrace).2.count
        (Event.errorReported .queueFull) = 1 := by
  decide

/-- **C5** (amended): at capacity with the marker configured and the Overrun
Flag unset, the record's text is replaced by the marker text, the flag is set,
a non-fatal `QueueFull` error is reported exactly once by that call, and the
marker is admitted; while the flag is set every at-capacity admission is
rejected to the caller with no further report and no state change; the flag
resets to false at the next point where the empty queue is *observed* — the
check at the start of a delivery tick — not at the instant the queue drains. -/
theorem c5_amended_overrun_episode (cfg : Config) :
    (∀ ts m cb s, s.stopped = false → s.batches.length ≥ cfg.maxQueuedBatches - 1 →
      s.queueOverrun = false → cfg.queueOverrunMessage ≠ [] →
      (logStep cfg ts m cb s).2.2 = LogResult.admitted s.nextCallbackId
      ∧ (logStep cfg ts m cb s).1.queueOverrun = true
      ∧ (logStep cfg ts m cb s).2.1.count (Event.errorReported .queueFull) = 1
      ∧ Event.recordAdmitted ⟨ts, (lengthGuard cfg cfg.queueOverrunMessage).1⟩
          ∈ (logStep cfg ts m cb s).2.1)
    ∧ (∀ ts m cb s, s.stopped = false → s.batches.length ≥ cfg.maxQueuedBatches - 1 →
        s.queueOverrun = true →
        logStep cfg ts m cb s = (s, [], LogResult.rejected))
    ∧ (∀ s, s.batches = [] → (callCallbacksIfEmptyQueue s).1.queueOverrun = false) := by
  refine ⟨?_, ?_, ?_⟩
  · intro ts m cb s hstop hcap hflag hmarker
    have hguard : overrunGuard cfg s m
        = some (true, cfg.queueOverrunMessage, [.errorReported .queueFull]) := by
      rw [overrunGuard, if_pos hcap, if_neg]
      simp [hflag, hmarker]
    have hb : (buildBatch cfg s.batches s.currentBatchTotalMessageSize
        ⟨ts, (lengthGuard cfg cfg.queueOverrunMessage).1⟩
        (getStringBytesSize (lengthGuard cfg cfg.queueOverrunMessage).1)).1 ≠ [] :=
      buildBatch_fst_ne_nil cfg _ _ _ _
    refine ⟨?_, ?_, ?_, ?_⟩
    · rw [logStep]
      simp [hstop, hguard]
    · rw [logStep]
      simp only [hstop, hguard]
      simp [callCallbacksIfEmptyQueue, hb]
    · rw [logStep]
      simp only [hstop, hguard]
      rcases lengthGuard_snd_cases cfg cfg.queueOverrunMessage with h2 | h2 <;>
        simp [callCallbacksIfEmptyQueue, hb, h2, List.count_cons, List.count_append]
    · rw [logStep]
      simp [callCallbacksIfEmptyQueue, hstop, hguard, hb]
  · intro ts m cb s hstop hcap hflag
    rw [logStep]
    have hguard : overrunGuard cfg s m = none := by
      rw [overrunGuard, if_pos hcap, if_pos]
      simp [hflag]
    simp [hstop, hguard]
  · intro s hempty
    rw [callCallbacksIfEmptyQueue, if_pos (by simpa using hempty)]

/-- Concrete check of `c5_amended_overrun_episode` with `maxQueuedBatches = 2`:
a marker substitution on a queue holding one batch, a rejection while the flag
is set, and a flag reset on an observed empty queue. -/
theorem c5_amended_overrun_episode_witness :
    ((logStep smallQueueConfig 9 ['z'] false
        { initialState with batches := [[⟨0, ['a']⟩]],
                            currentBatchTotalMessageSize := 1 }).2.2
      = LogResult.admitted 0
    ∧ (logStep smallQueueConfig 9 ['z'] false
        { initialState with batches := [[⟨0, ['a']⟩]],
                            currentBatchTotalMessageSize := 1 }).1.queueOverrun = true)
    ∧ logStep smallQueueConfig 9 ['z'] false
        { initialState with batches := [[⟨0, ['a']⟩]],
                            currentBatchTotalMessageSize := 1, queueOverrun := true }
      = ({ initialState with batches := [[⟨0, ['a']⟩]],
                             currentBatchTotalMessageSize := 1, queueOverrun := true },
         [], LogResult.rejected)
    ∧ (callCallbacksIfEmptyQueue
        { initialState with queueOverrun := true }).1.queueOverrun = false := by
  have h := c5_amended_overrun_episode smallQueueConfig
  refine ⟨⟨?_, ?_⟩, ?_, ?_⟩
  · exact (h.1 9 ['z'] false _ rfl (by decide) rfl (by decide)).1
  · exact (h.1 9 ['z'] false _ rfl (by decide) rfl (by decide)).2.1
  · exact h.2.1 9 ['z'] false _ rfl (by decide) rfl
  · exact h.2.2 _ rfl

/-! ## Shape lemmas for the two tick halves and for `log` -/

theorem deliveredRecords_append (a b : List Event) :
    deliveredRecords (a ++ b) = deliveredRecords a ++ deliveredRecords b := by
  simp [deliveredRecords, List.filterMap_append]

theorem deliveredRecords_nil : deliveredRecords [] = [] := rfl

theorem deliveredRecords_batchDelivered (b : List LogEvent) :
    deliveredRecords [Event.batchDelivered b] = b := by
  simp [deliveredRecords]

theorem deliveredRecords_recordAdmitted (ev : LogEvent) :
    deliveredRecords [Event.recordAdmitted ev] = [] := rfl

theorem deliveredRecords_errorReported (k : ErrorKind) :
    deliveredRecords [Event.errorReported k] = [] := rfl

theorem admittedRecords_nil : admittedRecords [] = [] := rfl

theorem admittedRecords_recordAdmitted (ev : LogEvent) :
    admittedRecords [Event.recordAdmitted ev] = [ev] := rfl

theorem admittedRecords_errorReported (k : ErrorKind) :
    admittedRecords [Event.errorReported k] = [] := rfl

theorem admittedRecords_cons_errorReported (k : ErrorKind) (t : List Event) :
    admittedRecords (Event.errorReported k :: t) = admittedRecords t := rfl

theorem admittedRecords_cons_recordAdmitted (ev : LogEvent) (t : List Event) :
    admittedRecords (Event.recordAdmitted ev :: t) = ev :: admittedRecords t := rfl

theorem deliveredRecords_cons_errorReported (k : ErrorKind) (t : List Event) :
    deliveredRecords (Event.errorReported k :: t) = deliveredRecords t := rfl

theorem deliveredRecords_cons_recordAdmitted (ev : LogEvent) (t : List Event) :
    deliveredRecords (Event.recordAdmitted ev :: t) = deliveredRecords t := rfl

theorem admittedRecords_append (a b : List Event) :
    admittedRecords (a ++ b) = admittedRecords a ++ admittedRecords b := by
  simp [admittedRecords, List.filterMap_append]

/-- Events that neither deliver nor admit records nor report a fatal error. -/
def NeutralEvents (evs : List Event) : Prop :=
  deliveredRecords evs = [] ∧ (∀ bb, Event.batchDelivered bb ∉ evs)
  ∧ admittedRecords evs = [] ∧ evs.countP isFatalEvent = 0

theorem NeutralEvents.append {a b : List Event}
    (ha : NeutralEvents a) (hb : NeutralEvents b) : NeutralEvents (a ++ b) := by
  obtain ⟨ha1, ha2, ha3, ha4⟩ := ha
  obtain ⟨hb1, hb2, hb3, hb4⟩ := hb
  refine ⟨?_, ?_, ?_, ?_⟩
  · rw [deliveredRecords_append, ha1, hb1]
    rfl
  · intro bb hbb
    rcases List.mem_append.mp hbb with hmem | hmem
    · exact ha2 bb hmem
    · exact hb2 bb hmem
  · rw [admittedRecords_append, ha3, hb3]
    rfl
  · rw [List.countP_append, ha4, hb4]

theorem neutral_nil : NeutralEvents [] := by
  refine ⟨rfl, ?_, rfl, rfl⟩
  intro bb hbb
  simp at hbb

theorem neutral_sinkCreateGroup : NeutralEvents [Event.sinkCreateGroup] := by
  refine ⟨rfl, ?_, rfl, rfl⟩
  intro bb hbb
  simp at hbb

theorem neutral_sinkCreateStream : NeutralEvents [Event.sinkCreateStream] := by
  refine ⟨rfl, ?_, rfl, rfl⟩
  intro bb hbb
  simp at hbb

theorem neutral_sinkPut (b : List LogEvent) : NeutralEvents [Event.sinkPut b] := by
  refine ⟨rfl, ?_, rfl, rfl⟩
  intro bb hbb
  simp at hbb

theorem neutral_errorReported (k : ErrorKind) : NeutralEvents [Event.errorReported k] := by
  refine ⟨rfl, ?_, rfl, rfl⟩
  intro bb hbb
  simp at hbb

/-- The three ways the awaited part of a `processQueue` invocation holding
batch `b` can settle, together with the queue, flag and event facts each case
guarantees (`cg`/`cs` are the possibly-updated provisioning flags). -/
def TickEndShape (cfg : Config) (s : TransportState) (b : List LogEvent)
    (r : TransportState × List Event) : Prop :=
  ∃ cg cs,
    (r.1 = tickFinally cfg { s with createdLogGroup := cg, createdLogStream := cs }
      ∧ Event.batchDelivered b ∈ r.2 ∧ deliveredRecords r.2 = b
      ∧ admittedRecords r.2 = [] ∧ r.2.countP isFatalEvent = 0)
    ∨ (r.1 = tickFinally cfg
          { s with createdLogGroup := cg, createdLogStream := cs, batches := b :: s.batches }
      ∧ (∀ bb, Event.batchDelivered bb ∉ r.2) ∧ deliveredRecords r.2 = []
      ∧ admittedRecords r.2 = [] ∧ r.2.countP isFatalEvent = 0)
    ∨ (r.1 = tickFinally cfg (if cfg.fatalCallbackCloses
          then { s with createdLogGroup := cg, createdLogStream := cs, stopped := true, timerArmed := false }
          else { s with createdLogGroup := cg, createdLogStream := cs })
      ∧ (∀ bb, Event.batchDelivered bb ∉ r.2) ∧ deliveredRecords r.2 = []
      ∧ admittedRecords r.2 = [] ∧ r.2.countP isFatalEvent = 1
      ∧ ∃ cause, Event.fatalReported cause ∈ r.2)

theorem tickCatch_shape (cfg : Config) (b : List LogEvent) (e : ThrownError)
    (s : TransportState) (evs0 : List Event) (h0 : NeutralEvents evs0) :
    TickEndShape cfg s b (tickCatch cfg b e s evs0) := by
  obtain ⟨h1, h2, h3, h4⟩ := h0
  cases e with
  | plain name =>
    refine ⟨s.createdLogGroup, s.createdLogStream, Or.inr (Or.inl ⟨rfl, ?_, ?_, ?_, ?_⟩)⟩
    · intro bb hbb
      rcases List.mem_append.mp hbb with hmem | hmem
      · exact h2 bb hmem
      · simp at hmem
    · rw [show (tickCatch cfg b (.plain name) s evs0).2
          = evs0 ++ [.errorReported (.thrown name)] from rfl,
        deliveredRecords_append, h1]
      rfl
    · rw [show (tickCatch cfg b (.plain name) s evs0).2
          = evs0 ++ [.errorReported (.thrown name)] from rfl,
        admittedRecords_append, h3]
      rfl
    · rw [show (tickCatch cfg b (.plain name) s evs0).2
          = evs0 ++ [.errorReported (.thrown name)] from rfl,
        List.countP_append, h4]
      rfl
  | fatalError cause =>
    refine ⟨s.createdLogGroup, s.createdLogStream,
      Or.inr (Or.inr ⟨?_, ?_, ?_, ?_, ?_, cause, ?_⟩)⟩
    · rfl
    · intro bb hbb
      rw [show (tickCatch cfg b (.fatalError cause) s evs0).2
          = evs0 ++ [.fatalReported cause] from rfl] at hbb
      rcases List.mem_append.mp hbb with hmem | hmem
      · exact h2 bb hmem
      · simp at hmem
    · rw [show (tickCatch cfg b (.fatalError cause) s evs0).2
          = evs0 ++ [.fatalReported cause] from rfl,
        deliveredRecords_append, h1]
      rfl
    · rw [show (tickCatch cfg b (.fatalError cause) s evs0).2
          = evs0 ++ [.fatalReported cause] from rfl,
        admittedRecords_append, h3]
      rfl
    · rw [show (tickCatch cfg b (.fatalError cause) s evs0).2
          = evs0 ++ [.fatalReported cause] from rfl,
        List.countP_append, h4]
      rfl
    · rw [show (tickCatch cfg b (.fatalError cause) s evs0).2
          = evs0 ++ [.fatalReported cause] from rfl]
      simp

theorem tickSend_shape (cfg : Config) (env : TickEnv) (b : List LogEvent)
    (s : TransportState) (evs0 : List Event) (h0 : NeutralEvents evs0) :
    TickEndShape cfg s b (tickSend cfg env b s evs0) := by
  obtain ⟨h1, h2, h3, h4⟩ := h0
  rcases hput : env.putResult with rejected | e
  · have hres : tickSend cfg env b s evs0
        = (tickFinally cfg s, evs0 ++ [.sinkPut b]
            ++ (if rejected then [.errorReported .rejectedLogEvents] else [])
            ++ [.batchDelivered b]) := by
      simp only [tickSend, hput]
    rw [hres]
    refine ⟨s.createdLogGroup, s.createdLogStream, Or.inl ⟨rfl, ?_, ?_, ?_, ?_⟩⟩
    · simp
    · rw [deliveredRecords_append, deliveredRecords_append, deliveredRecords_append, h1]
      cases rejected <;> simp [deliveredRecords]
    · rw [admittedRecords_append, admittedRecords_append, admittedRecords_append, h3]
      cases rejected <;> simp [admittedRecords]
    · rw [List.countP_append, List.countP_append, List.countP_append, h4]
      cases rejected <;> simp [isFatalEvent]
  · have hres : tickSend cfg env b s evs0
        = tickCatch cfg b (putLogEventsCatch e) s (evs0 ++ [.sinkPut b]) := by
      simp only [tickSend, hput]
    rw [hres]
    exact tickCatch_shape cfg b _ s _ (NeutralEvents.append ⟨h1, h2, h3, h4⟩ (neutral_sinkPut b))

theorem tickProvisionStream_shape (cfg : Config) (env : TickEnv) (b : List LogEvent)
    (s : TransportState) (evs0 : List Event) (h0 : NeutralEvents evs0) :
    TickEndShape cfg s b (tickProvisionStream cfg env b s evs0) := by
  by_cases hc : (!s.createdLogStream && cfg.shouldCreateLogStream) = true
  · rw [tickProvisionStream, if_pos hc]
    rcases hres : env.createStreamResult with _ | e
    · exact tickSend_shape cfg env b { s with createdLogStream := true } _
        (h0.append neutral_sinkCreateStream)
    · exact tickCatch_shape cfg b _ s _ (h0.append neutral_sinkCreateStream)
  · rw [tickProvisionStream, if_neg hc]
    exact tickSend_shape cfg env b s evs0 h0

theorem tickEnd_shape (cfg : Config) (env : TickEnv) (s : TransportState)
    (b : List LogEvent) (h : s.inFlight = some b) :
    TickEndShape cfg s b (tickEnd cfg env s) := by
  have hunfold : tickEnd cfg env s =
      (if !s.createdLogGroup && cfg.shouldCreateLogGroup then
        match env.createGroupResult with
        | some e => tickCatch cfg b (createLogGroupCatch e) s [.sinkCreateGroup]
        | none => tickProvisionStream cfg env b { s with createdLogGroup := true }
            [.sinkCreateGroup]
      else tickProvisionStream cfg env b s []) := by
    rw [tickEnd, h]
  rw [hunfold]
  by_cases hc : (!s.createdLogGroup && cfg.shouldCreateLogGroup) = true
  · rw [if_pos hc]
    rcases hres : env.createGroupResult with _ | e
    · exact tickProvisionStream_shape cfg env b { s with createdLogGroup := true } _
        neutral_sinkCreateGroup
    · exact tickCatch_shape cfg b _ s _ neutral_sinkCreateGroup
  · rw [if_neg hc]
    exact tickProvisionStream_shape cfg env b s [] neutral_nil

theorem overrunGuard_cases (cfg : Config) (s : TransportState) (m : List Char) :
    overrunGuard cfg s m = none
    ∨ overrunGuard cfg s m = some (s.queueOverrun, m, [])
    ∨ overrunGuard cfg s m
        = some (true, cfg.queueOverrunMessage, [.errorReported .queueFull]) := by
  rw [overrunGuard]
  split
  · split
    · exact Or.inl rfl
    · exact Or.inr (Or.inr rfl)
  · exact Or.inr (Or.inl rfl)

theorem callCallbacksIfEmptyQueue_batches (s : TransportState) :
    (callCallbacksIfEmptyQueue s).1.batches = s.batches := by
  rw [callCallbacksIfEmptyQueue]
  split <;> rfl

theorem callCallbacksIfEmptyQueue_inFlight (s : TransportState) :
    (callCallbacksIfEmptyQueue s).1.inFlight = s.inFlight := by
  rw [callCallbacksIfEmptyQueue]
  split <;> rfl

theorem neutral_resolvedMap (l : List (Nat × Bool)) :
    NeutralEvents (l.map fun c => Event.resolved c.1 c.2) := by
  induction l with
  | nil => exact neutral_nil
  | cons c t ih =>
    obtain ⟨i1, i2, i3, i4⟩ := ih
    refine ⟨?_, ?_, ?_, ?_⟩
    · simpa [deliveredRecords] using i1
    · intro bb hbb
      rcases List.mem_cons.mp hbb with hmem | hmem
      · simp at hmem
      · exact i2 bb hmem
    · simpa [admittedRecords] using i3
    · simpa [isFatalEvent] using i4

theorem buildBatch_flatten (cfg : Config) (batches0 : List (List LogEvent)) (acc0 : Nat)
    (ev : LogEvent) (msgSize : Nat) :
    (buildBatch cfg batches0 acc0 ev msgSize).1.flatten = batches0.flatten ++ [ev] := by
  rw [buildBatch]
  by_cases hb : batches0.isEmpty = true
  · have hb' : batches0 = [] := by simpa using hb
    subst hb'
    rw [if_pos hb]
    split <;> simp [appendToLast]
  · rw [if_neg hb]
    have hb' : batches0 ≠ [] := by
      intro h
      exact hb (by simp [h])
    split <;> simp [appendToLast_flatten _ ev hb']

/-- The admitted path of a `log` call whose overrun guard answered
`some (ov, m1, evs1)`: the record built from `m1` after the length guard is
appended behind every queued record, the in-flight batch is untouched,
exactly that record is shown as admitted, and nothing is delivered or
classified fatal by the call. -/
theorem logStep_admitted_aux (cfg : Config) (ts : Nat) (m : List Char) (cb : Bool)
    (s : TransportState) (ov : Bool) (m1 : List Char) (evs1 : List Event)
    (hstop : ¬ s.stopped = true)
    (hg : overrunGuard cfg s m = some (ov, m1, evs1))
    (hevs1 : NeutralEvents evs1) :
    (logStep cfg ts m cb s).2.2 = LogResult.admitted s.nextCallbackId
    ∧ (logStep cfg ts m cb s).1.inFlight = s.inFlight
    ∧ (logStep cfg ts m cb s).1.batches.flatten
        = s.batches.flatten ++ [⟨ts, (lengthGuard cfg m1).1⟩]
    ∧ admittedRecords (logStep cfg ts m cb s).2.1 = [⟨ts, (lengthGuard cfg m1).1⟩]
    ∧ deliveredRecords (logStep cfg ts m cb s).2.1 = []
    ∧ (∀ bb, Event.batchDelivered bb ∉ (logStep cfg ts m cb s).2.1)
    ∧ (logStep cfg ts m cb s).2.1.countP isFatalEvent = 0 := by
  obtain ⟨e1, e2, e3, e4⟩ := hevs1
  have hb : (buildBatch cfg s.batches s.currentBatchTotalMessageSize
      ⟨ts, (lengthGuard cfg m1).1⟩ (getStringBytesSize (lengthGuard cfg m1).1)).1 ≠ [] :=
    buildBatch_fst_ne_nil cfg _ _ _ _
  refine ⟨?_, ?_, ?_, ?_, ?_, ?_, ?_⟩ <;> rw [logStep, if_neg hstop, hg]
  · exact callCallbacksIfEmptyQueue_inFlight _
  · exact (congrArg List.flatten (callCallbacksIfEmptyQueue_batches _)).trans
      (buildBatch_flatten cfg _ _ _ _)
  · rcases lengthGuard_snd_cases cfg m1 with h2 | h2 <;>
      simp [callCallbacksIfEmptyQueue, hb, h2, admittedRecords_append, e3,
        admittedRecords_nil, admittedRecords_recordAdmitted, admittedRecords_errorReported,
        admittedRecords_cons_errorReported, admittedRecords_cons_recordAdmitted]
  · rcases lengthGuard_snd_cases cfg m1 with h2 | h2 <;>
      simp [callCallbacksIfEmptyQueue, hb, h2, deliveredRecords_append, e1,
        deliveredRecords_nil, deliveredRecords_recordAdmitted, deliveredRecords_errorReported,
        deliveredRecords_cons_errorReported, deliveredRecords_cons_recordAdmitted]
  · rcases lengthGuard_snd_cases cfg m1 with h2 | h2 <;>
      (intro bb hbb
       simp [callCallbacksIfEmptyQueue, hb, h2] at hbb
       exact e2 bb hbb)
  · rcases lengthGuard_snd_cases cfg m1 with h2 | h2 <;>
      simp [callCallbacksIfEmptyQueue, hb, h2, List.countP_append, e4, isFatalEvent]

/-- Every `log` call either throws, leaving the state untouched, or admits
one record as described by `logStep_admitted_aux`. -/
theorem logStep_shape (cfg : Config) (ts : Nat) (m : List Char) (cb : Bool)
    (s : TransportState) :
    logStep cfg ts m cb s = (s, [], .rejected)
    ∨ ∃ ev, (logStep cfg ts m cb s).2.2 = LogResult.admitted s.nextCallbackId
        ∧ (logStep cfg ts m cb s).1.inFlight = s.inFlight
        ∧ (logStep cfg ts m cb s).1.batches.flatten = s.batches.flatten ++ [ev]
        ∧ admittedRecords (logStep cfg ts m cb s).2.1 = [ev]
        ∧ deliveredRecords (logStep cfg ts m cb s).2.1 = []
        ∧ (∀ bb, Event.batchDelivered bb ∉ (logStep cfg ts m cb s).2.1)
        ∧ (logStep cfg ts m cb s).2.1.countP isFatalEvent = 0 := by
  by_cases hstop : s.stopped = true
  · exact Or.inl (by rw [logStep, if_pos hstop])
  · rcases overrunGuard_cases cfg s m with hg | hg | hg
    · exact Or.inl (by rw [logStep, if_neg hstop, hg])
    · exact Or.inr ⟨_, logStep_admitted_aux cfg ts m cb s _ _ _ hstop hg neutral_nil⟩
    · exact Or.inr ⟨_, logStep_admitted_aux cfg ts m cb s _ _ _ hstop hg
        (neutral_errorReported .queueFull)⟩

/-- **C10** (confirmed): no record is ever appended to a batch that is in
flight.  A `log` call made while batch `b` is outstanding leaves `b` exactly
as it is (the shifted batch is no longer reachable from the queue), and any
record it admits lands behind every record still queued; if the outstanding
send then fails transiently (no fatal classification, nothing delivered), `b`
is reinserted at the front of the queue, ahead of every batch created while
it was in flight. -/
theorem c10_inflight_batch_isolated (cfg : Config) (s : TransportState)
    (b : List LogEvent) (h : s.inFlight = some b) :
    (∀ ts m cb, (logStep cfg ts m cb s).1.inFlight = some b
      ∧ ((logStep cfg ts m cb s).2.2 = LogResult.admitted s.nextCallbackId →
          ∃ ev, (logStep cfg ts m cb s).1.batches.flatten = s.batches.flatten ++ [ev]))
    ∧ (∀ env, (∀ c, Event.fatalReported c ∉ (tickEnd cfg env s).2) →
        (∀ bb, Event.batchDelivered bb ∉ (tickEnd cfg env s).2) →
        (tickEnd cfg env s).1.batches = b :: s.batches) := by
  constructor
  · intro ts m cb
    rcases logStep_shape cfg ts m cb s with hrej | ⟨ev, hadm⟩
    · rw [hrej]
      refine ⟨h, ?_⟩
      intro habs
      simp at habs
    · exact ⟨hadm.2.1.trans h, fun _ => ⟨ev, hadm.2.2.1⟩⟩
  · intro env hfat hdel
    obtain ⟨cg, cs, hcase⟩ := tickEnd_shape cfg env s b h
    rcases hcase with ⟨_, hmem, _⟩ | ⟨heq, _⟩ | ⟨_, _, _, _, _, cause, hmem⟩
    · exact absurd hmem (hdel b)
    · rw [heq]
      exact rfl
    · exact absurd hmem (hfat cause)

/-- Concrete check of `c10_inflight_batch_isolated`: one batch in flight, one
batch queued, under the no-provisioning defaults. -/
theorem c10_inflight_batch_isolated_witness :
    (∀ ts m cb, (logStep noProvisioningConfig ts m cb
        { initialState with inFlight := some [⟨0, ['a']⟩],
                            batches := [[⟨1, ['b']⟩]],
                            currentBatchTotalMessageSize := 1 }).1.inFlight
          = some [⟨0, ['a']⟩]
      ∧ ((logStep noProvisioningConfig ts m cb
          { initialState with inFlight := some [⟨0, ['a']⟩],
                              batches := [[⟨1, ['b']⟩]],
                              currentBatchTotalMessageSize := 1 }).2.2
            = LogResult.admitted 0 →
          ∃ ev, (logStep noProvisioningConfig ts m cb
              { initialState with inFlight := some [⟨0, ['a']⟩],
                                  batches := [[⟨1, ['b']⟩]],
                                  currentBatchTotalMessageSize := 1 }).1.batches.flatten
            = [[⟨1, ['b']⟩]].flatten ++ [ev]))
    ∧ (∀ env, (∀ c, Event.fatalReported c ∉ (tickEnd noProvisioningConfig env
          { initialState with inFlight := some [⟨0, ['a']⟩],
                              batches := [[⟨1, ['b']⟩]],
                              currentBatchTotalMessageSize := 1 }).2) →
        (∀ bb, Event.batchDelivered bb ∉ (tickEnd noProvisioningConfig env
          { initialState with inFlight := some [⟨0, ['a']⟩],
                              batches := [[⟨1, ['b']⟩]],
                              currentBatchTotalMessageSize := 1 }).2) →
        (tickEnd noProvisioningConfig env
          { initialState with inFlight := some [⟨0, ['a']⟩],
                              batches := [[⟨1, ['b']⟩]],
                              currentBatchTotalMessageSize := 1 }).1.batches
          = [⟨0, ['a']⟩] :: [[⟨1, ['b']⟩]]) :=
  c10_inflight_batch_isolated noProvisioningConfig
    { initialState with inFlight := some [⟨0, ['a']⟩],
                        batches := [[⟨1, ['b']⟩]],
                        currentBatchTotalMessageSize := 1 }
    [⟨0, ['a']⟩] rfl

/-- The no-provisioning defaults with `abandonQueueOnClose := false`
(the documented "retry them until delivered" close policy). -/
def retryOnCloseConfig : Config :=
  { noProvisioningConfig with abandonQueueOnClose := false }

/-- One record enqueued and sent; the send fails with
`UnrecognizedClientException` (fatal).  A second record was enqueued while the
send was in flight. -/
def fatalOnceTrace : List Step :=
  [.enq 0 ['a'] false, .startTick, .enq 1 ['b'] false,
   .endTick ⟨none, none, .err .unrecognizedClient⟩]

/-- ... followed by the rearmed timer firing again with the same fatal sink
answer. -/
def fatalTwiceTrace : List Step :=
  fatalOnceTrace ++ [.startTick, .endTick ⟨none, none, .err .unrecognizedClient⟩]

/-- **C1** (counterexample): with `abandonQueueOnClose := false` — and the
fatal callback closing the transport, exactly as the Winston adapter wires
it — a fatal-classified send does NOT stop delivery: the `finally` on
src/index.js line 146 rearms the timer because `!abandonQueueOnClose` holds,
the next tick sends the batch that was enqueued before the failure, and the
fatal callback fires a second time: two sink calls and two fatal reports,
where the claim requires no rearming, no further sink calls and exactly one
callback. -/
theorem c1_fatal_rearms_counterexample :
    (run retryOnCloseConfig fatalOnceTrace).1.stopped = true
    ∧ (run retryOnCloseConfig fatalOnceTrace).1.timerArmed = true
    ∧ (run retryOnCloseConfig fatalTwiceTrace).2.countP isFatalEvent = 2
    ∧ (run retryOnCloseConfig fatalTwiceTrace).2.countP isSinkEvent = 2 := by
  decide

/-- A transport that is stopped, with no pending timer and no invocation in
flight, can never act again. -/
def Halted (s : TransportState) : Prop :=
  s.stopped = true ∧ s.timerArmed = false ∧ s.inFlight = none

theorem halted_step (cfg : Config) (s : TransportState) (st : Step) (h : Halted s) :
    Halted (stepRun cfg s st).1
    ∧ (stepRun cfg s st).2.countP isSinkEvent = 0
    ∧ (stepRun cfg s st).2.countP isFatalEvent = 0 := by
  obtain ⟨h1, h2, h3⟩ := h
  cases st with
  | enq ts m cb =>
    have : logStep cfg ts m cb s = (s, [], .rejected) := by
      rw [logStep, if_pos h1]
    simp only [stepRun, this]
    exact ⟨⟨h1, h2, h3⟩, rfl, rfl⟩
  | startTick =>
    have : tickStart cfg s = (s, []) := by
      rw [tickStart, if_pos (by simp [h2])]
    simp only [stepRun, this]
    exact ⟨⟨h1, h2, h3⟩, rfl, rfl⟩
  | endTick env =>
    have : tickEnd cfg env s = (s, []) := by
      rw [tickEnd, h3]
    simp only [stepRun, this]
    exact ⟨⟨h1, h2, h3⟩, rfl, rfl⟩
  | shut =>
    simp only [stepRun]
    exact ⟨⟨rfl, rfl, h3⟩, rfl, rfl⟩

theorem halted_run (cfg : Config) (s : TransportState) (steps : List Step) (h : Halted s) :
    (runFrom cfg s steps).2.countP isSinkEvent = 0
    ∧ (runFrom cfg s steps).2.countP isFatalEvent = 0 := by
  induction steps generalizing s with
  | nil => exact ⟨rfl, rfl⟩
  | cons st rest ih =>
    obtain ⟨hh, hs, hf⟩ := halted_step cfg s st h
    have := ih (stepRun cfg s st).1 hh
    simp [runFrom, List.countP_append, hs, hf, this.1, this.2]

/-- **C1** (amended): *provided* the fatal callback closes the transport (as
the Winston adapter does via `this.emit('error', err)`) *and*
`abandonQueueOnClose` is true (its default), a tick whose provisioning or
send fails with a fatal-classified error leaves the transport stopped with
the timer not rearmed and no invocation in flight, reports the fatal cause
exactly once in that tick, and no continuation of the run ever makes another
sink call or fatal report.  The counterexample shows the claim fails without
the `abandonQueueOnClose = true` assumption. -/
theorem c1_amended_fatal_stops_when_abandoning (cfg : Config) (env : TickEnv)
    (s : TransportState)
    (habandon : cfg.abandonQueueOnClose = true)
    (hcloses : cfg.fatalCallbackCloses = true)
    (hfat : ∃ c, Event.fatalReported c ∈ (tickEnd cfg env s).2) :
    (tickEnd cfg env s).1.stopped = true
    ∧ (tickEnd cfg env s).1.timerArmed = false
    ∧ (tickEnd cfg env s).1.inFlight = none
    ∧ (tickEnd cfg env s).2.countP isFatalEvent = 1
    ∧ ∀ steps, (runFrom cfg (tickEnd cfg env s).1 steps).2.countP isSinkEvent = 0
        ∧ (runFrom cfg (tickEnd cfg env s).1 steps).2.countP isFatalEvent = 0 := by
  obtain ⟨c0, hc0⟩ := hfat
  rcases hx : s.inFlight with _ | b
  · rw [tickEnd, hx] at hc0
    simp at hc0
  · obtain ⟨cg, cs, hcase⟩ := tickEnd_shape cfg env s b hx
    rcases hcase with ⟨_, _, _, _, hcount⟩ | ⟨_, _, _, _, hcount⟩
        | ⟨heq, _, _, _, hcount, _⟩
    · exact absurd hcount (by
        have : 0 < (tickEnd cfg env s).2.countP isFatalEvent :=
          List.countP_pos.mpr ⟨_, hc0, rfl⟩
        omega)
    · exact absurd hcount (by
        have : 0 < (tickEnd cfg env s).2.countP isFatalEvent :=
          List.countP_pos.mpr ⟨_, hc0, rfl⟩
        omega)
    · rw [hcloses, if_pos rfl] at heq
      have hstopped : (tickEnd cfg env s).1.stopped = true := by
        rw [heq]
        rfl
      have htimer : (tickEnd cfg env s).1.timerArmed = false := by
        rw [heq]
        simp [tickFinally, habandon]
      have hinf : (tickEnd cfg env s).1.inFlight = none := by
        rw [heq]
        rfl
      exact ⟨hstopped, htimer, hinf, hcount,
        fun steps => halted_run cfg _ steps ⟨hstopped, htimer, hinf⟩⟩

/-- Concrete check of `c1_amended_fatal_stops_when_abandoning`: a fatal send
under the defaults (abandon-on-close, adapter-wired fatal callback). -/
theorem c1_amended_witness :
    (tickEnd noProvisioningConfig ⟨none, none, .err .unrecognizedClient⟩
        { initialState with inFlight := some [⟨0, ['a']⟩], timerArmed := false,
                            batches := [[⟨1, ['b']⟩]] }).1.stopped = true
    ∧ (tickEnd noProvisioningConfig ⟨none, none, .err .unrecognizedClient⟩
        { initialState with inFlight := some [⟨0, ['a']⟩], timerArmed := false,
                            batches := [[⟨1, ['b']⟩]] }).1.timerArmed = false
    ∧ (tickEnd noProvisioningConfig ⟨none, none, .err .unrecognizedClient⟩
        { initialState with inFlight := some [⟨0, ['a']⟩], timerArmed := false,
                            batches := [[⟨1, ['b']⟩]] }).1.inFlight = none
    ∧ (tickEnd noProvisioningConfig ⟨none, none, .err .unrecognizedClient⟩
        { initialState with inFlight := some [⟨0, ['a']⟩], timerArmed := false,
                            batches := [[⟨1, ['b']⟩]] }).2.countP isFatalEvent = 1
    ∧ ∀ steps, (runFrom noProvisioningConfig
          (tickEnd noProvisioningConfig ⟨none, none, .err .unrecognizedClient⟩
            { initialState with inFlight := some [⟨0, ['a']⟩], timerArmed := false,
                                batches := [[⟨1, ['b']⟩]] }).1 steps).2.countP isSinkEvent = 0
        ∧ (runFrom noProvisioningConfig
            (tickEnd noProvisioningConfig ⟨none, none, .err .unrecognizedClient⟩
              { initialState with inFlight := some [⟨0, ['a']⟩], timerArmed := false,
                                  batches := [[⟨1, ['b']⟩]] }).1 steps).2.countP
              isFatalEvent = 0 :=
  c1_amended_fatal_stops_when_abandoning noProvisioningConfig
    ⟨none, none, .err .unrecognizedClient⟩
    { initialState with inFlight := some [⟨0, ['a']⟩], timerArmed := false,
                        batches := [[⟨1, ['b']⟩]] }
    rfl rfl ⟨.unrecognizedClient, by decide⟩

theorem admittedRecords_logAdmitted (id : Nat) :
    admittedRecords [Event.logAdmitted id] = [] := rfl

theorem deliveredRecords_logAdmitted (id : Nat) :
    deliveredRecords [Event.logAdmitted id] = [] := rfl

/-- The start of a tick never creates, drops or reorders records: the batch it
shifts moves from the queue head to the in-flight slot. -/
theorem tickStart_shape (cfg : Config) (s : TransportState) :
    pendingRecords (tickStart cfg s).1 = pendingRecords s
    ∧ NeutralEvents (tickStart cfg s).2 := by
  rw [tickStart]
  split
  · exact ⟨rfl, neutral_nil⟩
  · rename_i hcond
    have hif : s.inFlight = none := by
      rcases hx : s.inFlight with _ | b
      · rfl
      · rw [hx] at hcond
        simp at hcond
    rcases hbs : s.batches with _ | ⟨b, rest⟩
    · have hr : callCallbacksIfEmptyQueue { s with timerArmed := false }
          = ({ s with timerArmed := false, callbacks := [], queueOverrun := false },
             s.callbacks.map fun c => Event.resolved c.1 c.2) := by
        rw [callCallbacksIfEmptyQueue, if_pos (by simpa using hbs)]
      rw [hbs] at hr
      simp only []
      rw [hr]
      refine ⟨?_, neutral_resolvedMap _⟩
      simp [pendingRecords, tickFinally, hif, hbs]
    · have hr : callCallbacksIfEmptyQueue { s with timerArmed := false }
          = ({ s with timerArmed := false }, []) :=
        callCallbacksIfEmptyQueue_of_ne_nil _ (by simp [hbs])
      rw [hbs] at hr
      simp only []
      rw [hr]
      refine ⟨?_, neutral_nil⟩
      simp [pendingRecords, hif, hbs]

/-- One step neither loses nor reorders records: what was delivered so far
followed by what is still pending always equals the admitted sequence. -/
theorem stepRun_ordering (cfg : Config) (s : TransportState) (st : Step)
    (hnofatal : (stepRun cfg s st).2.countP isFatalEvent = 0) :
    deliveredRecords (stepRun cfg s st).2 ++ pendingRecords (stepRun cfg s st).1
      = pendingRecords s ++ admittedRecords (stepRun cfg s st).2 := by
  cases st with
  | enq ts m cb =>
    rcases logStep_shape cfg ts m cb s with hrej | ⟨ev, h1, h2, h3, h4, h5, h6, h7⟩
    · simp [stepRun, hrej, deliveredRecords, admittedRecords]
    · simp only [stepRun, h1]
      rw [deliveredRecords_append, admittedRecords_append, h4, h5,
        admittedRecords_logAdmitted, deliveredRecords_logAdmitted]
      simp only [pendingRecords, h2, h3]
      simp [List.append_assoc]
  | startTick =>
    obtain ⟨hp, e1, _, e3, _⟩ := tickStart_shape cfg s
    simp only [stepRun]
    rw [e1, e3, hp]
    simp
  | endTick env =>
    rcases hx : s.inFlight with _ | b
    · have hskip : tickEnd cfg env s = (s, []) := by
        rw [tickEnd, hx]
      simp [stepRun, hskip, deliveredRecords, admittedRecords]
    · obtain ⟨cg, cs, hcase⟩ := tickEnd_shape cfg env s b hx
      rcases hcase with ⟨heq, _, hdel, hadm, _⟩ | ⟨heq, _, hdel, hadm, _⟩
          | ⟨_, _, _, _, hcnt, _⟩
      · simp only [stepRun]
        rw [hdel, hadm, heq]
        simp [pendingRecords, tickFinally, hx]
      · simp only [stepRun]
        rw [hdel, hadm, heq]
        simp [pendingRecords, tickFinally, hx]
      · exact absurd hnofatal (by simp only [stepRun]; omega)
  | shut =>
    simp [stepRun, pendingRecords, closeStep, deliveredRecords, admittedRecords]

theorem runFrom_ordering (cfg : Config) (s : TransportState) (steps : List Step)
    (hnofatal : (runFrom cfg s steps).2.countP isFatalEvent = 0) :
    deliveredRecords (runFrom cfg s steps).2 ++ pendingRecords (runFrom cfg s steps).1
      = pendingRecords s ++ admittedRecords (runFrom cfg s steps).2 := by
  induction steps generalizing s with
  | nil => simp [runFrom, deliveredRecords, admittedRecords]
  | cons st rest ih =>
    simp only [runFrom] at hnofatal ⊢
    rw [List.countP_append] at hnofatal
    have h1 : (stepRun cfg s st).2.countP isFatalEvent = 0 := by omega
    have h2 : (runFrom cfg (stepRun cfg s st).1 rest).2.countP isFatalEvent = 0 := by omega
    have ha := stepRun_ordering cfg s st h1
    have hb := ih (stepRun cfg s st).1 h2
    rw [deliveredRecords_append, admittedRecords_append, List.append_assoc, hb,
      ← List.append_assoc, ha, List.append_assoc]

/-- **C3** (confirmed): in any run in which no failure is classified fatal —
in particular under any number of transient send failures and retries — the
records delivered to the sink, followed by the records still pending (in
flight or queued), are exactly the admitted records in admission order; hence
what the sink has received is always an initial segment of the admitted
sequence: nothing is skipped, reordered or duplicated, and a failed batch is
retried in full at the head of the queue. -/
theorem c3_delivery_preserves_admission_order (cfg : Config) (steps : List Step)
    (hnofatal : (run cfg steps).2.countP isFatalEvent = 0) :
    deliveredRecords (run cfg steps).2 ++ pendingRecords (run cfg steps).1
      = admittedRecords (run cfg steps).2
    ∧ deliveredRecords (run cfg steps).2 <+: admittedRecords (run cfg steps).2 := by
  have h := runFrom_ordering cfg initialState steps hnofatal
  rw [show pendingRecords initialState = [] from rfl] at h
  simp only [List.nil_append] at h
  exact ⟨h, ⟨_, h⟩⟩

/-- Concrete check of `c3_delivery_preserves_admission_order`: Scenario 4 of
the spec — one batch failing transiently three times and then succeeding. -/
theorem c3_delivery_preserves_admission_order_witness :
    deliveredRecords (run noProvisioningConfig
        [.enq 0 ['a'] false, .startTick, .endTick ⟨none, none, .err .networkError⟩,
         .startTick, .endTick ⟨none, none, .err .networkError⟩,
         .startTick, .endTick ⟨none, none, .err .networkError⟩,
         .startTick, .endTick ⟨none, none, .ok false⟩]).2
      ++ pendingRecords (run noProvisioningConfig
        [.enq 0 ['a'] false, .startTick, .endTick ⟨none, none, .err .networkError⟩,
         .startTick, .endTick ⟨none, none, .err .networkError⟩,
         .startTick, .endTick ⟨none, none, .err .networkError⟩,
         .startTick, .endTick ⟨none, none, .ok false⟩]).1
      = admittedRecords (run noProvisioningConfig
        [.enq 0 ['a'] false, .startTick, .endTick ⟨none, none, .err .networkError⟩,
         .startTick, .endTick ⟨none, none, .err .networkError⟩,
         .startTick, .endTick ⟨none, none, .err .networkError⟩,
         .startTick, .endTick ⟨none, none, .ok false⟩]).2
    ∧ deliveredRecords (run noProvisioningConfig
        [.enq 0 ['a'] false, .startTick, .endTick ⟨none, none, .err .networkError⟩,
         .startTick, .endTick ⟨none, none, .err .networkError⟩,
         .startTick, .endTick ⟨none, none, .err .networkError⟩,
         .startTick, .endTick ⟨none, none, .ok false⟩]).2
      <+: admittedRecords (run noProvisioningConfig
        [.enq 0 ['a'] false, .startTick, .endTick ⟨none, none, .err .networkError⟩,
         .startTick, .endTick ⟨none, none, .err .networkError⟩,
         .startTick, .endTick ⟨none, none, .err .networkError⟩,
         .startTick, .endTick ⟨none, none, .ok false⟩]).2 :=
  c3_delivery_preserves_admission_order noProvisioningConfig
    [.enq 0 ['a'] false, .startTick, .endTick ⟨none, none, .err .networkError⟩,
     .startTick, .endTick ⟨none, none, .err .networkError⟩,
     .startTick, .endTick ⟨none, none, .err .networkError⟩,
     .startTick, .endTick ⟨none, none, .ok false⟩] (by decide)

/-- A `log` call never resolves any waiter: the `callCallbacksIfEmptyQueue`
call at its end (src/index.js line 202) can never fire, because the record
just appended guarantees a non-empty queue. -/
theorem logStep_no_resolved (cfg : Config) (ts : Nat) (m : List Char) (cb : Bool)
    (s : TransportState) (id : Nat) (th : Bool) :
    Event.resolved id th ∉ (logStep cfg ts m cb s).2.1 := by
  by_cases hstop : s.stopped = true
  · rw [logStep, if_pos hstop]
    simp
  · rcases overrunGuard_cases cfg s m with hg | hg | hg
    · rw [logStep, if_neg hstop, hg]
      simp
    · rw [logStep, if_neg hstop, hg]
      have hb := buildBatch_fst_ne_nil cfg s.batches s.currentBatchTotalMessageSize
        ⟨ts, (lengthGuard cfg m).1⟩ (getStringBytesSize (lengthGuard cfg m).1)
      rcases lengthGuard_snd_cases cfg m with h2 | h2 <;>
        simp [callCallbacksIfEmptyQueue, hb, h2]
    · rw [logStep, if_neg hstop, hg]
      have hb := buildBatch_fst_ne_nil cfg s.batches s.currentBatchTotalMessageSize
        ⟨ts, (lengthGuard cfg cfg.queueOverrunMessage).1⟩
        (getStringBytesSize (lengthGuard cfg cfg.queueOverrunMessage).1)
      rcases lengthGuard_snd_cases cfg cfg.queueOverrunMessage with h2 | h2 <;>
        simp [callCallbacksIfEmptyQueue, hb, h2]

/-- Record r1 admitted and sent; record r2 admitted while r1's batch is in
flight; the send succeeds: r1's batch and every batch ahead of it are now
durably accepted. -/
def deliveredAheadTrace : List Step :=
  [.enq 0 ['a'] false, .startTick, .enq 1 ['c'] false, .endTick ⟨none, none, .ok false⟩]

/-- ... r1's waiter resolves only two ticks later, when the queue (including
r2's batch, admitted after r1) has fully drained and a tick observes it. -/
def deliveredAheadDrainTrace : List Step :=
  deliveredAheadTrace ++ [.startTick, .endTick ⟨none, none, .ok false⟩, .startTick]

/-- **C9** (counterexample): after `deliveredAheadTrace`, record r1's batch
and all batches ahead of it have been durably accepted (`batchDelivered` for
`[r1]` is in the events), yet r1's completion has not resolved — both waiters
are still pending and no `resolved` event occurred.  It resolves only in the
longer trace, after the batch of r2 (admitted later than r1) is also
delivered and a tick observes the empty queue — refuting "resolves once that
condition holds". -/
theorem c9_completion_deferred_counterexample :
    Event.batchDelivered [⟨0, ['a']⟩] ∈ (run noProvisioningConfig deliveredAheadTrace).2
    ∧ (run noProvisioningConfig deliveredAheadTrace).2.countP
        (fun e => match e with | Event.resolved _ _ => true | _ => false) = 0
    ∧ (run noProvisioningConfig deliveredAheadTrace).1.callbacks = [(0, false), (1, false)]
    ∧ Event.resolved 0 false ∈ (run noProvisioningConfig deliveredAheadDrainTrace).2 := by
  decide

/-- **C9** (amended): a record failing admission is rejected immediately with
no state change and no waiter registered; an admitted record's completion
does NOT resolve as soon as its batch and the batches ahead are accepted —
no `log` call ever resolves a waiter, and a waiter resolves only at a
delivery tick that observes the queue empty (so its record's batch and every
batch admitted before that observation, ahead or behind, has been settled);
at the first such tick every pending waiter is resolved. -/
theorem c9_completion_resolves_at_drain_observation (cfg : Config) :
    (∀ ts m cb s, (logStep cfg ts m cb s).2.2 = LogResult.rejected →
        logStep cfg ts m cb s = (s, [], LogResult.rejected))
    ∧ (∀ ts m cb s id th, Event.resolved id th ∉ (logStep cfg ts m cb s).2.1)
    ∧ (∀ s id th, Event.resolved id th ∈ (tickStart cfg s).2 →
        (tickStart cfg s).1.batches = [] ∧ (tickStart cfg s).1.inFlight = none)
    ∧ (∀ s, s.batches = [] → s.inFlight = none → s.timerArmed = true →
        ∀ c ∈ s.callbacks, Event.resolved c.1 c.2 ∈ (tickStart cfg s).2) := by
  refine ⟨?_, ?_, ?_, ?_⟩
  · intro ts m cb s hrej
    rcases logStep_shape cfg ts m cb s with h | ⟨ev, h1, _⟩
    · exact h
    · rw [hrej] at h1
      simp at h1
  · intro ts m cb s id th
    exact logStep_no_resolved cfg ts m cb s id th
  · intro s id th hmem
    by_cases hcond : (s.inFlight.isSome || !s.timerArmed) = true
    · rw [tickStart, if_pos hcond] at hmem
      simp at hmem
    · rcases hbs : s.batches with _ | ⟨b, rest⟩
      · have hidle : s.inFlight = none := by
          rcases hx : s.inFlight with _ | bb
          · rfl
          · rw [hx] at hcond
            simp at hcond
        have harm : s.timerArmed = true := by
          rcases hx : s.timerArmed
          · rw [hx] at hcond
            simp at hcond
          · rfl
        rw [tickStart_drain cfg s hbs hidle harm]
        exact ⟨by simp [tickFinally, hbs], rfl⟩
      · exfalso
        have hr : callCallbacksIfEmptyQueue { s with timerArmed := false }
            = ({ s with timerArmed := false }, []) :=
          callCallbacksIfEmptyQueue_of_ne_nil _ (by simp [hbs])
        rw [tickStart, if_neg hcond] at hmem
        simp only [] at hmem
        rw [hr] at hmem
        simp [hbs] at hmem
  · intro s hempty hidle harm c hc
    rw [tickStart_drain cfg s hempty hidle harm]
    exact List.mem_map.mpr ⟨c, hc, rfl⟩

/-- Concrete check of `c9_completion_resolves_at_drain_observation`. -/
theorem c9_completion_resolves_witness :
    logStep noProvisioningConfig 5 ['x'] false { initialState with stopped := true }
      = ({ initialState with stopped := true }, [], LogResult.rejected)
    ∧ Event.resolved 0 false ∉ (logStep noProvisioningConfig 5 ['x'] false initialState).2.1
    ∧ Event.resolved 3 true ∈ (tickStart noProvisioningConfig
        { initialState with callbacks := [(3, true)] }).2 := by
  have h := c9_completion_resolves_at_drain_observation noProvisioningConfig
  refine ⟨?_, h.2.1 5 ['x'] false initialState 0 false, ?_⟩
  · exact h.1 5 ['x'] false { initialState with stopped := true } rfl
  · exact h.2.2.2 { initialState with callbacks := [(3, true)] } rfl rfl rfl (3, true)
      (by decide)

/-! ## The per-batch and queue invariants (atomic public operations) -/

theorem batchBytes_nil : batchBytes [] = 0 := rfl

theorem batchBytes_append_single (l : List LogEvent) (ev : LogEvent) :
    batchBytes (l ++ [ev]) = batchBytes l + getStringBytesSize ev.message := by
  simp [batchBytes]

/-- Any message that leaves the length guard fits in
`actualMaxMessageNumBytes + suffix` bytes. -/
theorem lengthGuard_fst_le (cfg : Config) (m : List Char) :
    getStringBytesSize (lengthGuard cfg m).1
      ≤ actualMaxMessageNumBytes cfg + getStringBytesSize cfg.truncatedMessageSuffix := by
  rw [lengthGuard]
  split
  · rw [getStringBytesSize_append]
    have := truncateUtf8Bytes_size_le m (actualMaxMessageNumBytes cfg)
    omega
  · rename_i h
    show getStringBytesSize m ≤ _
    omega

theorem overrunGuard_cases' (cfg : Config) (s : TransportState) (m : List Char) :
    (overrunGuard cfg s m = none)
    ∨ (overrunGuard cfg s m = some (s.queueOverrun, m, [])
        ∧ ¬ s.batches.length ≥ cfg.maxQueuedBatches - 1)
    ∨ (overrunGuard cfg s m
          = some (true, cfg.queueOverrunMessage, [.errorReported .queueFull])
        ∧ s.batches.length ≥ cfg.maxQueuedBatches - 1 ∧ s.queueOverrun = false) := by
  rw [overrunGuard]
  split
  · rename_i hcap
    split
    · exact Or.inl rfl
    · rename_i hflag
      refine Or.inr (Or.inr ⟨rfl, hcap, ?_⟩)
      rcases hq : s.queueOverrun
      · rfl
      · rw [hq] at hflag
        simp at hflag
  · rename_i hcap
    exact Or.inr (Or.inl ⟨rfl, hcap⟩)

theorem getLastD_of_ne_nil {α : Type} (l : List α) (a b : α) (h : l ≠ []) :
    l.getLastD a = l.getLastD b := by
  cases l with
  | nil => exact absurd rfl h
  | cons x t => rw [List.getLastD_cons, List.getLastD_cons]

/-- Shifting the head of a non-empty queue when the timer fires. -/
theorem tickStart_cons (cfg : Config) (s : TransportState) (b : List LogEvent)
    (rest : List (List LogEvent)) (hidle : s.inFlight = none)
    (harm : s.timerArmed = true) (hbs : s.batches = b :: rest) :
    tickStart cfg s
      = ({ s with timerArmed := false, batches := rest, inFlight := some b }, []) := by
  rw [tickStart, if_neg (by simp [hidle, harm])]
  have hr : callCallbacksIfEmptyQueue { s with timerArmed := false }
      = ({ s with timerArmed := false }, []) :=
    callCallbacksIfEmptyQueue_of_ne_nil _ (by simp [hbs])
  simp only []
  rw [hr]
  simp only [hbs]

theorem getLastD_concat {α : Type} (l : List α) (x : α) (d : α) :
    (l ++ [x]).getLastD d = x := by
  rw [List.getLastD_eq_getLast?, List.getLast?_concat]
  rfl

theorem getLastD_eq_getLast {α : Type} (l : List α) (d : α) (h : l ≠ []) :
    l.getLastD d = l.getLast h := by
  rw [List.getLastD_eq_getLast?, List.getLast?_eq_getLast l h]
  rfl

/-- Unfolding the batch builder on an empty queue. -/
theorem buildBatch_nil_eq (cfg : Config) (acc0 : Nat) (ev : LogEvent) (msgSize : Nat) :
    buildBatch cfg [] acc0 ev msgSize
      = if ([ev] : List LogEvent).length ≥ maxBatchNumItems
            ∨ 0 + msgSize ≥ maxBatchNumBytes - actualMaxMessageNumBytes cfg then
          ([[ev], []], 0)
        else ([[ev]], 0 + msgSize) := by
  rw [buildBatch]
  simp only [List.isEmpty_nil, if_true, List.nil_append, appendToLast, List.nil_append]
  by_cases hc : ([ev] : List LogEvent).length ≥ maxBatchNumItems
      ∨ 0 + msgSize ≥ maxBatchNumBytes - actualMaxMessageNumBytes cfg
  · rw [if_pos (by simpa using hc), if_pos hc]
    rfl
  · rw [if_neg (by simpa using hc), if_neg hc]

/-- Unfolding the batch builder on a non-empty queue. -/
theorem buildBatch_cons_eq (cfg : Config) (batches0 : List (List LogEvent)) (acc0 : Nat)
    (ev : LogEvent) (msgSize : Nat) (h0 : batches0 ≠ []) :
    buildBatch cfg batches0 acc0 ev msgSize
      = if ((appendToLast batches0 ev).getLastD []).length ≥ maxBatchNumItems
            ∨ acc0 + msgSize ≥ maxBatchNumBytes - actualMaxMessageNumBytes cfg then
          (appendToLast batches0 ev ++ [([] : List LogEvent)], 0)
        else (appendToLast batches0 ev, acc0 + msgSize) := by
  rw [buildBatch]
  have hne : batches0.isEmpty = false := by simpa using h0
  simp only [hne, Bool.false_eq_true, if_false]
  by_cases hc : ((appendToLast batches0 ev).getLastD []).length ≥ maxBatchNumItems
      ∨ acc0 + msgSize ≥ maxBatchNumBytes - actualMaxMessageNumBytes cfg
  · rw [if_pos (by simpa using hc), if_pos hc]
  · rw [if_neg (by simpa using hc), if_neg hc]

/-- One append in the batch builder preserves the per-batch invariants: the
result has at most one more batch, every batch keeps the count bound and the
weak byte bound, and the open (last) batch is exactly tracked by the byte
accumulator and stays strictly below the sealing threshold. -/
theorem buildBatch_preserves (cfg : Config) (batches0 : List (List LogEvent)) (acc0 : Nat)
    (ev : LogEvent) (msgSize : Nat)
    (hmsg : getStringBytesSize ev.message = msgSize)
    (hmsgMax : msgSize ≤ maxMessageNumBytes)
    (hall : ∀ b ∈ batches0, b.length ≤ maxBatchNumItems
        ∧ batchBytes b < maxBatchNumBytes + getStringBytesSize cfg.truncatedMessageSuffix)
    (hlast : batches0 ≠ [] →
        (batches0.getLastD []).length < maxBatchNumItems
        ∧ batchBytes (batches0.getLastD []) = acc0
        ∧ acc0 < maxBatchNumBytes - actualMaxMessageNumBytes cfg)
    (hsuf : getStringBytesSize cfg.truncatedMessageSuffix ≤ maxMessageNumBytes) :
    (batches0 = [] → (buildBatch cfg batches0 acc0 ev msgSize).1.length = 1)
    ∧ (batches0 ≠ [] →
        (buildBatch cfg batches0 acc0 ev msgSize).1.length ≤ batches0.length + 1)
    ∧ (∀ b ∈ (buildBatch cfg batches0 acc0 ev msgSize).1,
        b.length ≤ maxBatchNumItems
        ∧ batchBytes b < maxBatchNumBytes + getStringBytesSize cfg.truncatedMessageSuffix)
    ∧ ((buildBatch cfg batches0 acc0 ev msgSize).1 ≠ [] →
        ((buildBatch cfg batches0 acc0 ev msgSize).1.getLastD []).length < maxBatchNumItems
        ∧ batchBytes ((buildBatch cfg batches0 acc0 ev msgSize).1.getLastD [])
            = (buildBatch cfg batches0 acc0 ev msgSize).2
        ∧ (buildBatch cfg batches0 acc0 ev msgSize).2
            < maxBatchNumBytes - actualMaxMessageNumBytes cfg) := by
  have hc1 : maxMessageNumBytes = 256000 := rfl
  have hc2 : maxBatchNumBytes = 1048576 := rfl
  have hc3 : maxBatchNumItems = 10000 := rfl
  have hc4 : actualMaxMessageNumBytes cfg
      = maxMessageNumBytes - getStringBytesSize cfg.truncatedMessageSuffix := rfl
  have hT : msgSize < maxBatchNumBytes - actualMaxMessageNumBytes cfg := by omega
  rcases eq_or_ne batches0 [] with h0 | h0
  · subst h0
    have hres : buildBatch cfg [] acc0 ev msgSize = ([[ev]], 0 + msgSize) := by
      rw [buildBatch_nil_eq, if_neg]
      push_neg
      exact ⟨by simp [hc3], by omega⟩
    rw [hres]
    have hbb : batchBytes [ev] = msgSize := by
      simp [batchBytes, hmsg]
    refine ⟨fun _ => rfl, fun h => absurd rfl h, ?_, ?_⟩
    · intro b hb
      simp at hb
      subst hb
      exact ⟨by simp [hc3], by omega⟩
    · intro _
      refine ⟨by simp [hc3], ?_, by omega⟩
      simpa using hbb.trans (Nat.zero_add msgSize).symm
  · obtain ⟨hl1, hl2, hl3⟩ := hlast h0
    have happ : appendToLast batches0 ev
        = batches0.dropLast ++ [batches0.getLast h0 ++ [ev]] := appendToLast_eq batches0 ev h0
    have hLD : batches0.getLastD [] = batches0.getLast h0 := getLastD_eq_getLast batches0 [] h0
    have hnewbytes : batchBytes (batches0.getLast h0 ++ [ev]) = acc0 + msgSize := by
      rw [batchBytes_append_single, ← hLD, hl2, hmsg]
    have hnewlen : (batches0.getLast h0 ++ [ev]).length ≤ maxBatchNumItems := by
      rw [List.length_append, ← hLD]
      simp only [List.length_cons, List.length_nil]
      omega
    have hgl : (appendToLast batches0 ev).getLastD [] = batches0.getLast h0 ++ [ev] := by
      rw [happ, getLastD_concat]
    have hmem : ∀ b ∈ appendToLast batches0 ev,
        b.length ≤ maxBatchNumItems
        ∧ batchBytes b < maxBatchNumBytes + getStringBytesSize cfg.truncatedMessageSuffix := by
      intro b hb
      rw [happ] at hb
      rcases List.mem_append.mp hb with hmem2 | hmem2
      · exact hall b (List.dropLast_prefix batches0 |>.subset hmem2)
      · simp at hmem2
        subst hmem2
        refine ⟨hnewlen, ?_⟩
        rw [hnewbytes]
        omega
    have hlen : (appendToLast batches0 ev).length = batches0.length :=
      appendToLast_length batches0 ev h0
    rw [buildBatch_cons_eq cfg batches0 acc0 ev msgSize h0]
    split
    · rename_i hseal
      refine ⟨fun h => absurd h h0, ?_, ?_, ?_⟩
      · intro _
        simp [hlen]
      · intro b hb
        rcases List.mem_append.mp hb with hmem2 | hmem2
        · exact hmem b hmem2
        · simp at hmem2
          subst hmem2
          refine ⟨by simp, ?_⟩
          rw [batchBytes_nil]
          omega
      · intro _
        rw [getLastD_concat]
        refine ⟨by simp [hc3], rfl, by omega⟩
    · rename_i hseal
      push_neg at hseal
      obtain ⟨hs1, hs2⟩ := hseal
      rw [hgl] at hs1
      refine ⟨fun h => absurd h h0, ?_, hmem, ?_⟩
      · intro _
        simp [hlen]
      · intro _
        rw [hgl]
        exact ⟨by omega, hnewbytes, by omega⟩

theorem callCallbacksIfEmptyQueue_acc (s : TransportState) :
    (callCallbacksIfEmptyQueue s).1.currentBatchTotalMessageSize
      = s.currentBatchTotalMessageSize := by
  rw [callCallbacksIfEmptyQueue]
  split <;> rfl

/-- The state invariant maintained between atomic public operations: no
invocation in flight, the queue bounded by `maxQueuedBatches` with the flag
set when full, every batch within the count bound and the weak byte bound,
and the open (last) batch exactly tracked by the accumulator and strictly
below the sealing threshold. -/
def AdmitInv (cfg : Config) (s : TransportState) : Prop :=
  s.inFlight = none
  ∧ s.batches.length ≤ cfg.maxQueuedBatches
  ∧ (s.batches.length = cfg.maxQueuedBatches → s.queueOverrun = true)
  ∧ (∀ b ∈ s.batches, b.length ≤ maxBatchNumItems
      ∧ batchBytes b < maxBatchNumBytes + getStringBytesSize cfg.truncatedMessageSuffix)
  ∧ (s.batches ≠ [] →
      (s.batches.getLastD []).length < maxBatchNumItems
      ∧ batchBytes (s.batches.getLastD []) = s.currentBatchTotalMessageSize
      ∧ s.currentBatchTotalMessageSize
          < maxBatchNumBytes - actualMaxMessageNumBytes cfg)

theorem admitInv_initial (cfg : Config) (hmax : 1 ≤ cfg.maxQueuedBatches) :
    AdmitInv cfg initialState := by
  refine ⟨rfl, by simp [initialState], ?_, ?_, ?_⟩
  · intro h0
    exact absurd h0.symm (by simp [initialState]; omega)
  · intro b hb
    simp [initialState] at hb
  · intro h0
    exact absurd rfl h0

/-- The admitted path of `log` under the state invariant. -/
theorem admitInv_logStep_admit (cfg : Config) (ts : Nat) (m : List Char) (cb : Bool)
    (s : TransportState) (ov : Bool) (m1 : List Char) (evs1 : List Event)
    (hstop : ¬ s.stopped = true)
    (hg : overrunGuard cfg s m = some (ov, m1, evs1))
    (hsuf : getStringBytesSize cfg.truncatedMessageSuffix ≤ maxMessageNumBytes)
    (hall : ∀ b ∈ s.batches, b.length ≤ maxBatchNumItems
        ∧ batchBytes b < maxBatchNumBytes + getStringBytesSize cfg.truncatedMessageSuffix)
    (hlast : s.batches ≠ [] →
        (s.batches.getLastD []).length < maxBatchNumItems
        ∧ batchBytes (s.batches.getLastD []) = s.currentBatchTotalMessageSize
        ∧ s.currentBatchTotalMessageSize
            < maxBatchNumBytes - actualMaxMessageNumBytes cfg) :
    (logStep cfg ts m cb s).1.inFlight = s.inFlight
    ∧ (logStep cfg ts m cb s).1.queueOverrun = ov
    ∧ (s.batches = [] → (logStep cfg ts m cb s).1.batches.length = 1)
    ∧ (s.batches ≠ [] →
        (logStep cfg ts m cb s).1.batches.length ≤ s.batches.length + 1)
    ∧ (∀ b ∈ (logStep cfg ts m cb s).1.batches, b.length ≤ maxBatchNumItems
        ∧ batchBytes b < maxBatchNumBytes + getStringBytesSize cfg.truncatedMessageSuffix)
    ∧ ((logStep cfg ts m cb s).1.batches ≠ [] →
        ((logStep cfg ts m cb s).1.batches.getLastD []).length < maxBatchNumItems
        ∧ batchBytes ((logStep cfg ts m cb s).1.batches.getLastD [])
            = (logStep cfg ts m cb s).1.currentBatchTotalMessageSize
        ∧ (logStep cfg ts m cb s).1.currentBatchTotalMessageSize
            < maxBatchNumBytes - actualMaxMessageNumBytes cfg) := by
  have hb : (buildBatch cfg s.batches s.currentBatchTotalMessageSize
      ⟨ts, (lengthGuard cfg m1).1⟩ (getStringBytesSize (lengthGuard cfg m1).1)).1 ≠ [] :=
    buildBatch_fst_ne_nil cfg _ _ _ _
  have hbatches : (logStep cfg ts m cb s).1.batches
      = (buildBatch cfg s.batches s.currentBatchTotalMessageSize
          ⟨ts, (lengthGuard cfg m1).1⟩ (getStringBytesSize (lengthGuard cfg m1).1)).1 := by
    rw [logStep, if_neg hstop, hg]
    exact callCallbacksIfEmptyQueue_batches _
  have hacc : (logStep cfg ts m cb s).1.currentBatchTotalMessageSize
      = (buildBatch cfg s.batches s.currentBatchTotalMessageSize
          ⟨ts, (lengthGuard cfg m1).1⟩ (getStringBytesSize (lengthGuard cfg m1).1)).2 := by
    rw [logStep, if_neg hstop, hg]
    exact callCallbacksIfEmptyQueue_acc _
  have hinf : (logStep cfg ts m cb s).1.inFlight = s.inFlight := by
    rw [logStep, if_neg hstop, hg]
    exact callCallbacksIfEmptyQueue_inFlight _
  have hflag : (logStep cfg ts m cb s).1.queueOverrun = ov := by
    rw [logStep, if_neg hstop, hg]
    simp [callCallbacksIfEmptyQueue, hb]
  have hmsgMax : getStringBytesSize (lengthGuard cfg m1).1 ≤ maxMessageNumBytes := by
    have h1 := lengthGuard_fst_le cfg m1
    have h2 : actualMaxMessageNumBytes cfg
        = maxMessageNumBytes - getStringBytesSize cfg.truncatedMessageSuffix := rfl
    omega
  obtain ⟨p1, p2, p3, p4⟩ := buildBatch_preserves cfg s.batches s.currentBatchTotalMessageSize
    ⟨ts, (lengthGuard cfg m1).1⟩ (getStringBytesSize (lengthGuard cfg m1).1)
    rfl hmsgMax hall hlast hsuf
  refine ⟨hinf, hflag, ?_, ?_, ?_, ?_⟩
  · intro h0
    rw [hbatches]
    exact p1 h0
  · intro h0
    rw [hbatches]
    exact p2 h0
  · intro b hbmem
    rw [hbatches] at hbmem
    exact p3 b hbmem
  · intro h0
    rw [hbatches] at h0 ⊢
    rw [hacc]
    exact p4 h0

theorem admitInv_logStep (cfg : Config) (ts : Nat) (m : List Char) (cb : Bool)
    (s : TransportState)
    (hsuf : getStringBytesSize cfg.truncatedMessageSuffix ≤ maxMessageNumBytes)
    (h : AdmitInv cfg s) : AdmitInv cfg (logStep cfg ts m cb s).1 := by
  obtain ⟨hif, hlen, hflag, hall, hlast⟩ := h
  by_cases hstop : s.stopped = true
  · rw [logStep, if_pos hstop]
    exact ⟨hif, hlen, hflag, hall, hlast⟩
  · rcases overrunGuard_cases' cfg s m with hg | ⟨hg, hcap⟩ | ⟨hg, hcap, hflag0⟩
    · rw [logStep, if_neg hstop, hg]
      exact ⟨hif, hlen, hflag, hall, hlast⟩
    · obtain ⟨q1, q2, q3, q4, q5, q6⟩ :=
        admitInv_logStep_admit cfg ts m cb s _ _ _ hstop hg hsuf hall hlast
      have hpostlen : (logStep cfg ts m cb s).1.batches.length < cfg.maxQueuedBatches := by
        rcases eq_or_ne s.batches [] with h0 | h0
        · rw [q3 h0]
          rw [h0] at hcap
          simp at hcap
          omega
        · have := q4 h0
          omega
      refine ⟨q1.trans hif, by omega, ?_, q5, q6⟩
      intro habs
      exact absurd habs (by omega)
    · obtain ⟨q1, q2, q3, q4, q5, q6⟩ :=
        admitInv_logStep_admit cfg ts m cb s _ _ _ hstop hg hsuf hall hlast
      have hlen0 : s.batches.length + 1 ≤ cfg.maxQueuedBatches := by
        rcases Nat.lt_or_ge s.batches.length cfg.maxQueuedBatches with hlt | hge
        · omega
        · exfalso
          have heq : s.batches.length = cfg.maxQueuedBatches := by omega
          rw [hflag heq] at hflag0
          exact absurd hflag0 (by decide)
      have hpostlen : (logStep cfg ts m cb s).1.batches.length ≤ cfg.maxQueuedBatches := by
        rcases eq_or_ne s.batches [] with h0 | h0
        · rw [q3 h0]
          omega
        · have := q4 h0
          omega
      exact ⟨q1.trans hif, hpostlen, fun _ => q2, q5, q6⟩

/-- Rebuilding the invariant after a tick settles, from the final state's
fields. -/
theorem admitInv_of_fields (cfg : Config) (s : TransportState) (b : List LogEvent)
    (rest : List (List LogEvent)) (hbs : s.batches = b :: rest)
    (hlen : s.batches.length ≤ cfg.maxQueuedBatches)
    (hflag : s.batches.length = cfg.maxQueuedBatches → s.queueOverrun = true)
    (hall : ∀ bb ∈ s.batches, bb.length ≤ maxBatchNumItems
        ∧ batchBytes bb < maxBatchNumBytes + getStringBytesSize cfg.truncatedMessageSuffix)
    (hlast : s.batches ≠ [] →
        (s.batches.getLastD []).length < maxBatchNumItems
        ∧ batchBytes (s.batches.getLastD []) = s.currentBatchTotalMessageSize
        ∧ s.currentBatchTotalMessageSize
            < maxBatchNumBytes - actualMaxMessageNumBytes cfg)
    (X : TransportState) (hx1 : X.inFlight = none)
    (hx2 : X.batches = rest ∨ X.batches = s.batches)
    (hx3 : X.queueOverrun = s.queueOverrun)
    (hx4 : X.currentBatchTotalMessageSize = s.currentBatchTotalMessageSize) :
    AdmitInv cfg X := by
  have hlen' : rest.length + 1 ≤ cfg.maxQueuedBatches := by
    rw [hbs] at hlen
    simpa using hlen
  rcases hx2 with hx2 | hx2
  · refine ⟨hx1, ?_, ?_, ?_, ?_⟩
    · rw [hx2]
      omega
    · intro habs
      rw [hx2] at habs
      omega
    · intro bb hbb
      exact hall bb (by rw [hbs]; exact List.mem_cons_of_mem b (hx2 ▸ hbb))
    · intro h0
      rw [hx2] at h0 ⊢
      rw [hx4]
      have hgl : rest.getLastD [] = s.batches.getLastD [] := by
        rw [hbs, List.getLastD_cons]
        exact (getLastD_of_ne_nil rest b [] h0).symm
      rw [hgl]
      exact hlast (by rw [hbs]; simp)
  · refine ⟨hx1, ?_, ?_, ?_, ?_⟩
    · rw [hx2]
      exact hlen
    · intro habs
      rw [hx2] at habs
      rw [hx3]
      exact hflag habs
    · intro bb hbb
      exact hall bb (hx2 ▸ hbb)
    · intro h0
      rw [hx2] at h0 ⊢
      rw [hx4]
      exact hlast h0

theorem admitInv_tick (cfg : Config) (env : TickEnv) (s : TransportState)
    (hmax : 1 ≤ cfg.maxQueuedBatches)
    (h : AdmitInv cfg s) : AdmitInv cfg (stepA cfg s (.tick env)).1 := by
  obtain ⟨hif, hlen, hflag, hall, hlast⟩ := h
  by_cases harm : s.timerArmed = true
  · rcases hbs : s.batches with _ | ⟨b, rest⟩
    · have h1 := tickStart_drain cfg s hbs hif harm
      have h2 : tickEnd cfg env (tickStart cfg s).1 = ((tickStart cfg s).1, []) := by
        rw [h1]
        rfl
      have hstate : (stepA cfg s (.tick env)).1 = (tickStart cfg s).1 := by
        simp only [stepA, h2]
      rw [hstate, h1]
      refine ⟨rfl, by simp [tickFinally, hbs], ?_, ?_, ?_⟩
      · intro h0
        exfalso
        simp [tickFinally, hbs] at h0
        omega
      · intro bb hbb
        simp [tickFinally, hbs] at hbb
      · intro h0
        simp [tickFinally, hbs] at h0
    · have h1 := tickStart_cons cfg s b rest hif harm hbs
      have hmid : (tickStart cfg s).1.inFlight = some b := by
        rw [h1]
      obtain ⟨cg, cs, hcase⟩ := tickEnd_shape cfg env (tickStart cfg s).1 b hmid
      have hstate : (stepA cfg s (.tick env)).1 = (tickEnd cfg env (tickStart cfg s).1).1 := by
        simp only [stepA]
      rcases hcase with ⟨heq, _⟩ | ⟨heq, _⟩ | ⟨heq, _⟩
      · rw [hstate, heq, h1]
        exact admitInv_of_fields cfg s b rest hbs hlen hflag hall hlast _ rfl
          (Or.inl rfl) rfl rfl
      · rw [hstate, heq, h1]
        refine admitInv_of_fields cfg s b rest hbs hlen hflag hall hlast _ rfl
          (Or.inr ?_) rfl rfl
        rw [hbs]
        rfl
      · rw [hstate, heq, h1]
        by_cases hcl : cfg.fatalCallbackCloses = true
        · rw [if_pos hcl]
          exact admitInv_of_fields cfg s b rest hbs hlen hflag hall hlast _ rfl
            (Or.inl rfl) rfl rfl
        · rw [if_neg hcl]
          exact admitInv_of_fields cfg s b rest hbs hlen hflag hall hlast _ rfl
            (Or.inl rfl) rfl rfl
  · have h1 : tickStart cfg s = (s, []) := by
      rw [tickStart, if_pos]
      simp [harm]
    have h2 : tickEnd cfg env s = (s, []) := by
      rw [tickEnd, hif]
    have hstate : (stepA cfg s (.tick env)).1 = s := by
      simp only [stepA, h1, h2]
    rw [hstate]
    exact ⟨hif, hlen, hflag, hall, hlast⟩

theorem admitInv_shut (cfg : Config) (s : TransportState) (h : AdmitInv cfg s) :
    AdmitInv cfg (closeStep s) := by
  obtain ⟨hif, hlen, hflag, hall, hlast⟩ := h
  exact ⟨hif, hlen, hflag, hall, hlast⟩

theorem admitInv_runAFrom (cfg : Config) (asteps : List AStep) (s : TransportState)
    (hmax : 1 ≤ cfg.maxQueuedBatches)
    (hsuf : getStringBytesSize cfg.truncatedMessageSuffix ≤ maxMessageNumBytes)
    (h : AdmitInv cfg s) : AdmitInv cfg (runAFrom cfg s asteps).1 := by
  induction asteps generalizing s with
  | nil => exact h
  | cons st rest ih =>
    have hstep : AdmitInv cfg (stepA cfg s st).1 := by
      cases st with
      | enq ts m cb =>
        have hfst : (stepA cfg s (.enq ts m cb)).1 = (logStep cfg ts m cb s).1 := by
          simp only [stepA, stepRun]
          rcases (logStep cfg ts m cb s).2.2 with _ | _ <;> rfl
        rw [hfst]
        exact admitInv_logStep cfg ts m cb s hsuf h
      | tick env => exact admitInv_tick cfg env s hmax h
      | shut => exact admitInv_shut cfg s h
    exact ih (stepA cfg s st).1 hstep

theorem stepA_enq_fst (cfg : Config) (ts : Nat) (m : List Char) (cb : Bool)
    (s : TransportState) :
    (stepA cfg s (.enq ts m cb)).1 = (logStep cfg ts m cb s).1 := by
  simp only [stepA, stepRun]
  rcases (logStep cfg ts m cb s).2.2 with _ | _ <;> rfl

theorem runAFrom_fst_cons (cfg : Config) (s : TransportState) (st : AStep)
    (rest : List AStep) :
    (runAFrom cfg s (st :: rest)).1 = (runAFrom cfg (stepA cfg s st).1 rest).1 := rfl

/-- One `log` call on the default configuration, from a running state with the
queue below capacity, with a message short enough to escape truncation:
the batch builder output is installed and a fresh waiter is registered. -/
theorem c6_step (ts : Nat) (M : List Char) (hM : getStringBytesSize M = 200000)
    (bs bs' : List (List LogEvent)) (acc acc' : Nat) (cbs : List (Nat × Bool)) (nid : Nat)
    (hcap : bs.length < 99)
    (hbb : buildBatch defaultConfig bs acc ⟨ts, M⟩ 200000 = (bs', acc')) :
    (logStep defaultConfig ts M false
        ⟨bs, acc, false, false, false, false, true, cbs, nid, none⟩).1
      = ⟨bs', acc', false, false, false, false, true,
         cbs ++ [(nid, false)], nid + 1, none⟩ := by
  have hg : overrunGuard defaultConfig
      ⟨bs, acc, false, false, false, false, true, cbs, nid, none⟩ M
      = some (false, M, []) := by
    rw [overrunGuard, if_neg]
    exact Nat.not_le.mpr hcap
  have hl : lengthGuard defaultConfig M = (M, []) := by
    have hsz : ¬ getStringBytesSize M > actualMaxMessageNumBytes defaultConfig := by
      rw [hM]
      decide
    rw [lengthGuard, if_neg hsz]
  have hb : (buildBatch defaultConfig bs acc ⟨ts, M⟩ 200000).1 ≠ [] :=
    buildBatch_fst_ne_nil defaultConfig bs acc ⟨ts, M⟩ 200000
  rw [logStep, if_neg (by exact Bool.false_ne_true), hg]
  simp only [hl, hM, hbb] at hb ⊢
  simp [callCallbacksIfEmptyQueue, hb, hbb]

theorem c6_threshold :
    maxBatchNumBytes - actualMaxMessageNumBytes defaultConfig = 792586 := by
  decide

theorem c6_buildBatch_1 (M : List Char) :
    buildBatch defaultConfig [] 0 ⟨1, M⟩ 200000 = ([[⟨1, M⟩]], 200000) := by
  rw [buildBatch_nil_eq, if_neg (by rw [c6_threshold]; simp [maxBatchNumItems])]

theorem c6_buildBatch_2 (M : List Char) :
    buildBatch defaultConfig [[⟨1, M⟩]] 200000 ⟨2, M⟩ 200000
      = ([[⟨1, M⟩, ⟨2, M⟩]], 400000) := by
  rw [buildBatch_cons_eq _ _ _ _ _ (by simp),
    if_neg (by rw [c6_threshold]; simp [appendToLast, maxBatchNumItems])]
  rfl

theorem c6_buildBatch_3 (M : List Char) :
    buildBatch defaultConfig [[⟨1, M⟩, ⟨2, M⟩]] 400000 ⟨3, M⟩ 200000
      = ([[⟨1, M⟩, ⟨2, M⟩, ⟨3, M⟩]], 600000) := by
  rw [buildBatch_cons_eq _ _ _ _ _ (by simp),
    if_neg (by rw [c6_threshold]; simp [appendToLast, maxBatchNumItems])]
  rfl

theorem c6_buildBatch_4 (M : List Char) :
    buildBatch defaultConfig [[⟨1, M⟩, ⟨2, M⟩, ⟨3, M⟩]] 600000 ⟨4, M⟩ 200000
      = ([[⟨1, M⟩, ⟨2, M⟩, ⟨3, M⟩, ⟨4, M⟩], []], 0) := by
  rw [buildBatch_cons_eq _ _ _ _ _ (by simp),
    if_pos (by rw [c6_threshold]; simp [appendToLast, maxBatchNumItems])]
  rfl

/-- Four 200000-byte messages logged back to back: the open batch absorbs all
four (800000 bytes) before the builder seals it, because the seal check runs
only after the append. -/
theorem c6_core (M : List Char) (hM : getStringBytesSize M = 200000) :
    (runA defaultConfig
        [AStep.enq 1 M false, AStep.enq 2 M false,
         AStep.enq 3 M false, AStep.enq 4 M false]).1.batches
      = [[⟨1, M⟩, ⟨2, M⟩, ⟨3, M⟩, ⟨4, M⟩], []] := by
  have hinit : initialState
      = (⟨[], 0, false, false, false, false, true, [], 0, none⟩ : TransportState) := rfl
  rw [runA, hinit, runAFrom_fst_cons, stepA_enq_fst,
    c6_step 1 M hM _ _ _ _ _ _ (by simp) (c6_buildBatch_1 M)]
  rw [runAFrom_fst_cons, stepA_enq_fst,
    c6_step 2 M hM _ _ _ _ _ _ (by simp) (c6_buildBatch_2 M)]
  rw [runAFrom_fst_cons, stepA_enq_fst,
    c6_step 3 M hM _ _ _ _ _ _ (by simp) (c6_buildBatch_3 M)]
  rw [runAFrom_fst_cons, stepA_enq_fst,
    c6_step 4 M hM _ _ _ _ _ _ (by simp) (c6_buildBatch_4 M)]
  rfl

/-- Byte total of the batch built by `c6_core`. -/
theorem c6_core_bytes (M : List Char) (hM : getStringBytesSize M = 200000) :
    batchBytes [⟨1, M⟩, ⟨2, M⟩, ⟨3, M⟩, ⟨4, M⟩] = 800000 := by
  simp [batchBytes, hM]

/-- C6 counterexample: after four 200000-byte log calls on the default
configuration, the queue holds a batch of 800000 bytes, exceeding
`maxBatchNumBytes - actualMaxMessageNumBytes` (1048576 - 255990 = 792586),
because the builder seals a batch only after appending the record that
crosses the threshold. -/
theorem c6_batch_exceeds_reserve_counterexample :
    maxBatchNumBytes - actualMaxMessageNumBytes defaultConfig = 792586
    ∧ ∃ b ∈ (runA defaultConfig
        [AStep.enq 1 (List.replicate 200000 'a') false,
         AStep.enq 2 (List.replicate 200000 'a') false,
         AStep.enq 3 (List.replicate 200000 'a') false,
         AStep.enq 4 (List.replicate 200000 'a') false]).1.batches,
      batchBytes b = 800000 ∧ 792586 < batchBytes b := by
  have hM : getStringBytesSize (List.replicate 200000 'a') = 200000 := by
    rw [getStringBytesSize_replicate]
    decide
  have hrun := c6_core (List.replicate 200000 'a') hM
  have hbytes := c6_core_bytes (List.replicate 200000 'a') hM
  refine ⟨by decide, ⟨_, ?_, hbytes, ?_⟩⟩
  · rw [hrun]
    exact List.mem_cons_self _ _
  · rw [hbytes]
    decide

/-- C6: at every point between public operations (enqueue, atomic tick,
close), every queued batch holds at most `maxBatchNumItems` records and
strictly fewer than `maxBatchNumBytes + suffixBytes` bytes (the unamended
`maxBatchNumBytes - reserve` bound fails, see the counterexample), and the
queue holds at most `maxQueuedBatches` batches, provided the capacity is at
least one and the truncation suffix fits in a message. -/
theorem c6_amended_queue_and_batch_bounds (cfg : Config) (asteps : List AStep)
    (hmax : 1 ≤ cfg.maxQueuedBatches)
    (hsuf : getStringBytesSize cfg.truncatedMessageSuffix ≤ maxMessageNumBytes) :
    (runA cfg asteps).1.batches.length ≤ cfg.maxQueuedBatches
    ∧ ∀ b ∈ (runA cfg asteps).1.batches,
        b.length ≤ maxBatchNumItems
        ∧ batchBytes b < maxBatchNumBytes + getStringBytesSize cfg.truncatedMessageSuffix := by
  have h := admitInv_runAFrom cfg asteps initialState hmax hsuf
    (admitInv_initial cfg hmax)
  exact ⟨h.2.1, h.2.2.2.1⟩

theorem c6_amended_witness :
    1 ≤ defaultConfig.maxQueuedBatches
    ∧ getStringBytesSize defaultConfig.truncatedMessageSuffix ≤ maxMessageNumBytes
    ∧ ((runA defaultConfig [AStep.enq 5 ['h', 'i'] false]).1.batches.length
          ≤ defaultConfig.maxQueuedBatches
      ∧ ∀ b ∈ (runA defaultConfig [AStep.enq 5 ['h', 'i'] false]).1.batches,
          b.length ≤ maxBatchNumItems
          ∧ batchBytes b < maxBatchNumBytes
              + getStringBytesSize defaultConfig.truncatedMessageSuffix) :=
  ⟨by decide, by decide,
    c6_amended_queue_and_batch_bounds defaultConfig [AStep.enq 5 ['h', 'i'] false]
      (by decide) (by decide)⟩

end CloudwatchWinston
